import Mathlib

/-!
# Verification of the belux-cdm coordinate transcoder scripts

Shallow embedding of the three Python scripts of the repository:

* `src/scripts/convert.py`        — runway-record decimal ↔ hemisphere-DMS transcoder
* `src/scripts/convert-coordinates.py` — generic decimal → DMS transcoder
* `src/scripts/geojson.py`        — apron/taxi record → GeoJSON feature builder

Modelling conventions:

* Python `str` is modelled by `List Char` (`PyStr`); slicing, `strip`, `split`
  and `join` are translated as explicit list functions.
* Python `float` (IEEE-754 double) is modelled by exact rationals `ℚ`;
  `round` (banker's rounding, ties to even) is modelled exactly by `rhe`,
  `int(·)` truncation toward zero by `pyTrunc`.  The arithmetic of the
  embedding is written with the kernel-evaluable primitives `qAdd`, `qSub`,
  `qMul`, `qDiv`, `qAbs`, `qFloor` (Mathlib's own `Rat` operations carry
  `@[irreducible]` and cannot be evaluated by `decide`); the bridge lemmas
  `qAdd_eq` … `qFloor_eq` prove that each primitive agrees with the
  corresponding field operation on `ℚ`.
* `int(s)`/`float(s)` literal parsing is modelled for ASCII literals
  (optional surrounding whitespace, optional sign, decimal digits; for
  `float` also fraction, exponent, and the `inf`/`nan` forms as
  recognised-but-non-finite).  Digit-group underscores and non-ASCII digits
  accepted by CPython are outside the model.
* Exceptions (`ValueError`) are modelled by `Except Err`; the `Err`
  constructors correspond to the individual `raise` sites.
-/

/-! ## Kernel-evaluable exact rational arithmetic -/

/-- Addition on `ℚ`, written so that the kernel can evaluate it. -/
def qAdd (a b : ℚ) : ℚ := Rat.divInt (a.num * b.den + b.num * a.den) (a.den * b.den)

/-- Subtraction on `ℚ`, written so that the kernel can evaluate it. -/
def qSub (a b : ℚ) : ℚ := Rat.divInt (a.num * b.den - b.num * a.den) (a.den * b.den)

/-- Multiplication on `ℚ`, written so that the kernel can evaluate it. -/
def qMul (a b : ℚ) : ℚ := Rat.divInt (a.num * b.num) (a.den * b.den)

/-- Division on `ℚ` (with `qDiv a 0 = 0`, as in Mathlib), written so that the
kernel can evaluate it. -/
def qDiv (a b : ℚ) : ℚ := Rat.divInt (a.num * b.den) (a.den * b.num)

/-- Absolute value on `ℚ`, written so that the kernel can evaluate it. -/
def qAbs (a : ℚ) : ℚ := Rat.divInt (a.num.natAbs : ℤ) (a.den : ℤ)

/-- Floor of a rational, written so that the kernel can evaluate it. -/
def qFloor (a : ℚ) : ℤ := a.num / (a.den : ℤ)

theorem qAdd_eq (a b : ℚ) : qAdd a b = a + b := by
  have ha : ((a.den : ℚ)) ≠ 0 := by exact_mod_cast a.den_nz
  have hb : ((b.den : ℚ)) ≠ 0 := by exact_mod_cast b.den_nz
  conv_rhs => rw [← Rat.num_div_den a, ← Rat.num_div_den b]
  rw [div_add_div _ _ ha hb, qAdd, Rat.divInt_eq_div]
  push_cast
  ring_nf

theorem qSub_eq (a b : ℚ) : qSub a b = a - b := by
  have ha : ((a.den : ℚ)) ≠ 0 := by exact_mod_cast a.den_nz
  have hb : ((b.den : ℚ)) ≠ 0 := by exact_mod_cast b.den_nz
  conv_rhs => rw [← Rat.num_div_den a, ← Rat.num_div_den b]
  rw [div_sub_div _ _ ha hb, qSub, Rat.divInt_eq_div]
  push_cast
  ring_nf

theorem qMul_eq (a b : ℚ) : qMul a b = a * b := by
  conv_rhs => rw [← Rat.num_div_den a, ← Rat.num_div_den b]
  rw [div_mul_div_comm, qMul, Rat.divInt_eq_div]
  push_cast
  ring_nf

theorem qDiv_eq (a b : ℚ) : qDiv a b = a / b := by
  rcases eq_or_ne b 0 with hb | hb
  · subst hb
    rw [qDiv, Rat.divInt_eq_div]
    push_cast
    norm_num [Rat.num_ofNat, Rat.den_ofNat]
  · have ha : ((a.den : ℚ)) ≠ 0 := by exact_mod_cast a.den_nz
    have hbd : ((b.den : ℚ)) ≠ 0 := by exact_mod_cast b.den_nz
    have hbn : ((b.num : ℚ)) ≠ 0 := by exact_mod_cast Rat.num_ne_zero.mpr hb
    conv_rhs => rw [← Rat.num_div_den a, ← Rat.num_div_den b]
    rw [div_div_div_comm, qDiv, Rat.divInt_eq_div]
    push_cast
    field_simp
    ring_nf
    tauto

theorem qAbs_eq (a : ℚ) : qAbs a = |a| := by
  have h : (0 : ℚ) < (a.den : ℚ) := by exact_mod_cast a.den_pos
  conv_rhs => rw [← Rat.num_div_den a]
  rw [abs_div, abs_of_pos h, qAbs, Rat.divInt_eq_div]
  push_cast [Int.cast_natAbs]
  ring_nf

theorem qFloor_eq (a : ℚ) : qFloor a = ⌊a⌋ := (Rat.floor_def).symm

/-- Python strings, modelled as lists of characters. -/
abbrev PyStr := List Char

/-- Convert a Lean string literal to the `PyStr` model. -/
def pystr (s : String) : PyStr := s.data

/-- The six ASCII whitespace characters stripped by Python's `str.strip()`. -/
def pySpace (c : Char) : Bool :=
  c = ' ' || c = '\t' || c = '\n' || c = '\r' || c = Char.ofNat 11 || c = Char.ofNat 12

/-- `str.lstrip()`. -/
def stripLeft (s : PyStr) : PyStr := s.dropWhile pySpace

/-- `str.rstrip()`. -/
def stripRight (s : PyStr) : PyStr := (s.reverse.dropWhile pySpace).reverse

/-- `str.strip()`. -/
def strip (s : PyStr) : PyStr := stripRight (stripLeft s)

/-- `str.rstrip("\n")`. -/
def rstripNL (s : PyStr) : PyStr := (s.reverse.dropWhile (· = '\n')).reverse

/-- `str.split(sep)` for a one-character separator (Python semantics:
`"".split(c) = [""]`, empty groups preserved). -/
def splitCh (sep : Char) : PyStr → List PyStr
  | [] => [[]]
  | c :: cs =>
    if c = sep then [] :: splitCh sep cs
    else
      match splitCh sep cs with
      | [] => [[c]]
      | g :: gs => (c :: g) :: gs

/-- `sep.join(groups)` for a one-character separator. -/
def joinSep (sep : Char) : List PyStr → PyStr
  | [] => []
  | [g] => g
  | g :: gs => g ++ sep :: joinSep sep gs

/-- The decimal digit character for `n < 10`. -/
def digitChar (n : ℕ) : Char := Char.ofNat (48 + n)

/-- Decimal digit rendering with an explicit fuel argument (structural
recursion, so that the kernel can evaluate it). -/
def natDigitsAux : ℕ → ℕ → List Char
  | 0, _ => []
  | fuel + 1, n =>
    if n < 10 then [digitChar n] else natDigitsAux fuel (n / 10) ++ [digitChar (n % 10)]

/-- Decimal digit string of a natural number, most significant digit first. -/
def natDigits (n : ℕ) : List Char := natDigitsAux (n + 1) n

/-- Zero-pad a natural number to width `w`, as in `f"{n:0wd}"` for `n ≥ 0`. -/
def padNat (w : ℕ) (n : ℕ) : PyStr :=
  let ds := natDigits n
  List.replicate (w - ds.length) '0' ++ ds

/-- `f"{k:0wd}"` for an integer (sign counts toward the width, as in Python). -/
def padInt (w : ℕ) (k : ℤ) : PyStr :=
  if k < 0 then '-' :: padNat (w - 1) k.natAbs else padNat w k.natAbs

/-- Value of a list of decimal digit characters (most significant first). -/
def digitsVal (ds : PyStr) : ℕ := ds.foldl (fun a c => 10 * a + (c.toNat - 48)) 0

/-- All characters are ASCII decimal digits. -/
def allDigits (ds : PyStr) : Bool := ds.all Char.isDigit

/-- Model of Python `int(s)` on ASCII decimal literals: optional surrounding
whitespace, optional sign, then one or more digits. -/
def pyInt? (s : PyStr) : Option ℤ :=
  match strip s with
  | '+' :: ds => if !ds.isEmpty && allDigits ds then some (digitsVal ds : ℤ) else none
  | '-' :: ds => if !ds.isEmpty && allDigits ds then some (-(digitsVal ds : ℤ)) else none
  | ds => if !ds.isEmpty && allDigits ds then some (digitsVal ds : ℤ) else none

/-- Split a float literal at the first exponent marker `e`/`E`, if any. -/
def splitExpChar : PyStr → PyStr × Option PyStr
  | [] => ([], none)
  | c :: cs =>
    if c = 'e' || c = 'E' then ([], some cs)
    else
      let p := splitExpChar cs
      (c :: p.1, p.2)

/-- Value of the mantissa part of a float literal (`digits`, `digits.digits`,
`digits.`, or `.digits`). -/
def mantVal? (m : PyStr) : Option ℚ :=
  match splitCh '.' m with
  | [i] => if !i.isEmpty && allDigits i then some (digitsVal i : ℚ) else none
  | [i, f] =>
    if (!i.isEmpty || !f.isEmpty) && allDigits i && allDigits f then
      some (Rat.divInt ((digitsVal i : ℤ) * 10 ^ f.length + (digitsVal f : ℤ))
        ((10 : ℤ) ^ f.length))
    else none
  | _ => none

/-- Value of the optional exponent part of a float literal. -/
def expVal? : Option PyStr → Option ℤ
  | none => some 0
  | some ('+' :: ds) => if !ds.isEmpty && allDigits ds then some (digitsVal ds : ℤ) else none
  | some ('-' :: ds) => if !ds.isEmpty && allDigits ds then some (-(digitsVal ds : ℤ)) else none
  | some ds => if !ds.isEmpty && allDigits ds then some (digitsVal ds : ℤ) else none

/-- `10^e` for an integer exponent, in kernel-evaluable form. -/
def qPow10 (e : ℤ) : ℚ :=
  if 0 ≤ e then Rat.divInt ((10 : ℤ) ^ e.toNat) 1 else Rat.divInt 1 ((10 : ℤ) ^ (-e).toNat)

/-- Value of an unsigned finite float literal. -/
def floatCore? (t : PyStr) : Option ℚ :=
  let p := splitExpChar t
  match mantVal? p.1, expVal? p.2 with
  | some m, some e => some (qMul m (qPow10 e))
  | _, _ => none

/-- Model of Python `float(s)` on finite ASCII decimal literals, returning the
exact rational value. -/
def pyFloatVal? (s : PyStr) : Option ℚ :=
  match strip s with
  | '+' :: t => floatCore? t
  | '-' :: t => (floatCore? t).map Neg.neg
  | t => floatCore? t

/-- ASCII upper-casing, as `str.upper()` on ASCII input. -/
def asciiUpper (c : Char) : Char :=
  if 'a' ≤ c ∧ c ≤ 'z' then Char.ofNat (c.toNat - 32) else c

/-- ASCII lower-casing. -/
def asciiLower (c : Char) : Char :=
  if 'A' ≤ c ∧ c ≤ 'Z' then Char.ofNat (c.toNat + 32) else c

/-- The non-finite float literals (`inf`, `infinity`, `nan`, any case, optional
sign) accepted by Python `float(s)`. -/
def isInfNan (t : PyStr) : Bool :=
  let core := match t with
    | '+' :: u => u
    | '-' :: u => u
    | u => u
  let l := core.map asciiLower
  l == pystr "inf" || l == pystr "infinity" || l == pystr "nan"

/-- Round-half-to-even to an integer: the model of Python `round(x)`. -/
def rhe (q : ℚ) : ℤ :=
  let n := qFloor q
  let f := qSub q (n : ℚ)
  if f < Rat.divInt 1 2 then n
  else if Rat.divInt 1 2 < f then n + 1
  else if n % 2 = 0 then n else n + 1

/-- The model of Python `round(x, 3)`. -/
def round3 (q : ℚ) : ℚ := Rat.divInt (rhe (qMul q 1000)) 1000

/-- Truncation toward zero: the model of Python `int(x)` on a float
(`Int.tdiv` rounds toward zero, and `q.den` is positive). -/
def pyTrunc (q : ℚ) : ℤ := Int.tdiv q.num (q.den : ℤ)

/-! ## `decimal_to_dms_hem` (convert.py lines 49–87; the identical duplicate
in convert-coordinates.py lines 21–70 is embedded by the same definitions) -/

/-- Hemisphere letter selection (convert.py lines 50–53): `value >= 0` picks
N/E, otherwise S/W. -/
def hemChar (value : ℚ) (is_lat : Bool) : Char :=
  if is_lat then (if 0 ≤ value then 'N' else 'S')
  else (if 0 ≤ value then 'E' else 'W')

/-- `deg = int(v)` (convert.py line 56). -/
def degOf (v : ℚ) : ℤ := pyTrunc v

/-- `minutes_full = (v - deg) * 60.0` (convert.py line 57). -/
def minutesFull (v : ℚ) : ℚ := qMul (qSub v (degOf v : ℚ)) 60

/-- `minute = int(minutes_full)` (convert.py line 58). -/
def minuteOf (v : ℚ) : ℤ := pyTrunc (minutesFull v)

/-- `seconds = (minutes_full - minute) * 60.0` (convert.py line 59). -/
def secondsRaw (v : ℚ) : ℚ := qMul (qSub (minutesFull v) (minuteOf v : ℚ)) 60

/-- The first carry cascade (convert.py lines 62–67): if rounded seconds ≥ 60
subtract 60 and increment the minute; if the minute then is ≥ 60 subtract 60
and increment the degree.  Returns `(deg, minute, seconds)`. -/
def carry_cascade (deg minute : ℤ) (seconds : ℚ) : ℤ × ℤ × ℚ :=
  let sm : ℚ × ℤ := if 60 ≤ seconds then (qSub seconds 60, minute + 1) else (seconds, minute)
  let md : ℤ × ℤ := if 60 ≤ sm.2 then (sm.2 - 60, deg + 1) else (sm.2, deg)
  (md.2, md.1, sm.1)

/-- The rendering stage of `decimal_to_dms_hem` (convert.py lines 69–87):
pre-renders `deg_str`/`min_str`, splits the (already rounded) seconds into
integer and millisecond parts, and runs the defensive second carry cascade.
Note that, exactly as in the source, `deg_str` and `min_str` are refreshed
only in the innermost branch of the second cascade. -/
def dms_render (hem : Char) (deg minute : ℤ) (seconds : ℚ) : PyStr :=
  let deg_str := padInt 3 deg
  let min_str := padInt 2 minute
  let sec_int := pyTrunc seconds
  let sec_frac := rhe (qMul (qSub seconds (sec_int : ℚ)) 1000)
  if sec_frac = 1000 then
    let sec_frac : ℤ := 0
    let sec_int := sec_int + 1
    if 60 ≤ sec_int then
      let sec_int : ℤ := 0
      let minute := minute + 1
      if 60 ≤ minute then
        let minute : ℤ := 0
        let deg := deg + 1
        let deg_str := padInt 3 deg
        let min_str := padInt 2 minute
        hem :: (deg_str ++ '.' :: min_str ++ '.' :: padInt 2 sec_int ++ '.' :: padInt 3 sec_frac)
      else
        hem :: (deg_str ++ '.' :: min_str ++ '.' :: padInt 2 sec_int ++ '.' :: padInt 3 sec_frac)
    else
      hem :: (deg_str ++ '.' :: min_str ++ '.' :: padInt 2 sec_int ++ '.' :: padInt 3 sec_frac)
  else
    hem :: (deg_str ++ '.' :: min_str ++ '.' :: padInt 2 sec_int ++ '.' :: padInt 3 sec_frac)

/-- `decimal_to_dms_hem(value, is_lat)` (convert.py lines 49–87 and the
identical convert-coordinates.py lines 21–70). -/
def decimal_to_dms_hem (value : ℚ) (is_lat : Bool) : PyStr :=
  let hem := hemChar value is_lat
  let v := qAbs value
  let dms := carry_cascade (degOf v) (minuteOf v) (round3 (secondsRaw v))
  dms_render hem dms.1 dms.2.1 dms.2.2

example : decimal_to_dms_hem (Rat.divInt 509008489 10000000) true = pystr "N050.54.03.056" := by
  decide
example : decimal_to_dms_hem (Rat.divInt 44756856 10000000) false = pystr "E004.28.32.468" := by
  decide
example : decimal_to_dms_hem (Rat.divInt 50999999999 1000000000) true = pystr "N051.00.00.000" := by
  decide

/-! ## Errors

One constructor per `raise` site of the scripts (the exception type in Python
is always `ValueError`; the constructors record which message was raised).
The messages' interpolated text is not modelled. -/

inductive Err where
  /-- convert.py line 93: `Too short for DMS`. -/
  | tooShort
  /-- convert.py line 97: `Latitude must start with N or S`. -/
  | badLatHem
  /-- convert.py line 99: `Longitude must start with E or W`. -/
  | badLonHem
  /-- convert.py line 104: `DMS must look like HDDD.MM.SS.sss`. -/
  | badGroups
  /-- convert.py line 112: `Non-numeric DMS components`. -/
  | nonNumeric
  /-- convert.py line 115: `Minutes out of range`. -/
  | minutesRange
  /-- convert.py line 117: `Seconds out of range`. -/
  | secondsRange
  /-- convert.py line 119: `Milliseconds out of range`. -/
  | msecRange
  /-- convert.py lines 163/232: `Unexpected field count …` (11 or 12 expected). -/
  | fieldCount (n : ℕ)
  /-- The `ValueError` raised by `float(raw)` on a bad literal
  (convert.py line 176). -/
  | badFloat
  /-- convert-coordinates.py line 89: too few fields (< 5). -/
  | tooFewFields
  /-- convert-coordinates.py line 96: odd number of coordinate fields. -/
  | oddCoordFields
  /-- convert-coordinates.py line 106: non-numeric coordinate value(s). -/
  | nonNumericPair
  /-- geojson.py line 56: bad coordinate token count. -/
  | badCoordCount
  /-- The `ValueError` raised by `_to_float` in geojson.py line 23. -/
  | badFloatTok
  deriving DecidableEq

deriving instance DecidableEq for Except

/-- The spec's FormatError class (§7): malformed DMS text or non-numeric
component. -/
def Err.isFormatErr : Err → Bool
  | .tooShort | .badLatHem | .badLonHem | .badGroups | .nonNumeric => true
  | _ => false

/-- The spec's RangeError class (§7): minutes/seconds/milliseconds out of
bounds. -/
def Err.isRangeErr : Err → Bool
  | .minutesRange | .secondsRange | .msecRange => true
  | _ => false

/-! ## `dms_hem_to_decimal` (convert.py lines 90–125) -/

/-- `dms_hem_to_decimal(text, is_lat)` (convert.py lines 90–125). -/
def dms_hem_to_decimal (text : PyStr) (is_lat : Bool) : Except Err ℚ :=
  match strip text with
  | [] => .error .tooShort
  | [_] => .error .tooShort
  | h :: r₁ :: rest =>
    let hem := asciiUpper h
    if is_lat && !(hem == 'N' || hem == 'S') then .error .badLatHem
    else if !is_lat && !(hem == 'E' || hem == 'W') then .error .badLonHem
    else
      match splitCh '.' (r₁ :: rest) with
      | [g0, g1, g2, g3] =>
        match pyInt? g0, pyInt? g1, pyInt? g2, pyInt? g3 with
        | some deg, some minute, some sec, some msec =>
          if ¬(0 ≤ minute ∧ minute < 60) then .error .minutesRange
          else if ¬(0 ≤ sec ∧ sec < 60) then .error .secondsRange
          else if ¬(0 ≤ msec ∧ msec < 1000) then .error .msecRange
          else
            let seconds : ℚ := qAdd (sec : ℚ) (qDiv (msec : ℚ) 1000)
            let dec : ℚ := qAdd (qAdd (deg : ℚ) (qDiv (minute : ℚ) 60)) (qDiv seconds 3600)
            .ok (if hem == 'S' || hem == 'W' then -dec else dec)
        | _, _, _, _ => .error .nonNumeric
      | _ => .error .badGroups

/-- `format_decimal(value, places)` (convert.py lines 128–129), the model of
`f"{value:.{places}f}"`: fixed-point rendering with round-half-to-even. -/
def format_decimal (value : ℚ) (places : ℕ) : PyStr :=
  let m := (rhe (qMul (qAbs value) ((10 : ℤ) ^ places : ℤ))).natAbs
  let sign : PyStr := if value < 0 then ['-'] else []
  if places = 0 then sign ++ natDigits m
  else sign ++ natDigits (m / 10 ^ places) ++ '.' :: padNat places (m % 10 ^ places)

/-! ## Format detection (convert.py lines 34–46 and 132–153) -/

/-- The shape test of `DMS_RE` (convert.py line 34):
`^[NSEW]\d{3}\.\d{2}\.\d{2}\.\d{3}$`, case-insensitive. -/
def dmsShape : PyStr → Bool
  | [h, a, b, c, p1, d, e, p2, f, g, p3, i, j, k] =>
    (h == 'N' || h == 'S' || h == 'E' || h == 'W' ||
     h == 'n' || h == 's' || h == 'e' || h == 'w')
    && a.isDigit && b.isDigit && c.isDigit && p1 == '.' && d.isDigit && e.isDigit
    && p2 == '.' && f.isDigit && g.isDigit && p3 == '.' && i.isDigit && j.isDigit && k.isDigit
  | _ => false

/-- `looks_like_dms(s)` (convert.py lines 37–38). -/
def looks_like_dms (s : PyStr) : Bool := dmsShape (strip s)

/-- `looks_like_decimal(s)` (convert.py lines 41–46): `float(s.strip())`
succeeds (finite literal or `inf`/`infinity`/`nan`). -/
def looks_like_decimal (s : PyStr) : Bool :=
  (pyFloatVal? s).isSome || isInfNan (strip s)

/-- `detect_mode(parts)` (convert.py lines 132–153).  `some true` = reverse
(DMS → decimal), `some false` = forward, `none` = cannot tell. -/
def detect_mode (parts : List PyStr) : Option Bool :=
  let coord_fields := (parts.drop 2).take 8
  let dms_hits := coord_fields.countP looks_like_dms
  let dec_hits := coord_fields.countP looks_like_decimal
  if dms_hits = 8 ∧ dec_hits = 0 then some true
  else if dec_hits = 8 ∧ dms_hits = 0 then some false
  else if dms_hits > dec_hits ∧ dms_hits ≥ 4 then some true
  else if dec_hits > dms_hits ∧ dec_hits ≥ 4 then some false
  else none

/-! ## `convert_record_line` (convert.py lines 156–179) -/

/-- The conversion applied to one coordinate field (convert.py lines 171–177):
strip, then DMS → decimal (rendered with `format_decimal`) in reverse mode, or
`float` parse and decimal → DMS in forward mode. -/
def convField (reverse : Bool) (places : ℕ) (is_lat : Bool) (p : PyStr) : Except Err PyStr :=
  let raw := strip p
  if reverse then
    match dms_hem_to_decimal raw is_lat with
    | .ok dec => .ok (format_decimal dec places)
    | .error e => .error e
  else
    match pyFloatVal? raw with
    | some dec => .ok (decimal_to_dms_hem dec is_lat)
    | none => .error .badFloat

/-- The loop of convert.py lines 169–177: walk the fields with their indices,
converting exactly the fields at indices 2..9 (even offsets are latitudes),
left to right. -/
def convRange (reverse : Bool) (places : ℕ) : ℕ → List PyStr → Except Err (List PyStr)
  | _, [] => .ok []
  | i, p :: ps =>
    if 2 ≤ i ∧ i < 10 then
      match convField reverse places ((i - 2) % 2 == 0) p with
      | .ok c =>
        match convRange reverse places (i + 1) ps with
        | .ok rest => .ok (c :: rest)
        | .error e => .error e
      | .error e => .error e
    else
      match convRange reverse places (i + 1) ps with
      | .ok rest => .ok (p :: rest)
      | .error e => .error e

/-- `convert_record_line(line, reverse, decimal_places)` (convert.py
lines 156–179). -/
def convert_record_line (line : PyStr) (reverse : Bool) (places : ℕ) : Except Err PyStr :=
  let stripped := strip line
  if stripped.isEmpty then .ok (rstripNL line)
  else
    let parts := splitCh ':' stripped
    if ¬(parts.length = 11 ∨ parts.length = 12) then .error (.fieldCount parts.length)
    else
      match convRange reverse places 0 parts with
      | .ok out => .ok (joinSep ':' out)
      | .error e => .error e

/-! ## The main loop of convert.py (lines 221–267) -/

/-- Processing of one input line by `main` of convert.py (lines 223–260):
comments and blank lines pass through (minus trailing newlines); otherwise the
field count is checked, the direction possibly auto-switched by
`detect_mode` (unless `--force`), and `convert_record_line` applied.
The stderr warnings and the hint attached to a forced failure decorate
messages only and are not modelled. -/
def process_line_conv (reverse force : Bool) (places : ℕ) (raw : PyStr) : Except Err PyStr :=
  if (stripLeft raw).head? == some '#' || (strip raw).isEmpty then .ok (rstripNL raw)
  else
    let stripped := strip raw
    let parts := splitCh ':' stripped
    if ¬(parts.length = 11 ∨ parts.length = 12) then .error (.fieldCount parts.length)
    else
      let chosen_reverse :=
        if !force then
          match detect_mode parts with
          | some d => if d != reverse then d else reverse
          | none => reverse
        else reverse
      convert_record_line raw chosen_reverse places

/-- The accumulation loop of convert.py lines 221–260 over all input lines
(first `ValueError` aborts the run). -/
def convLines (reverse force : Bool) (places : ℕ) : List PyStr → Except Err (List PyStr)
  | [] => .ok []
  | l :: ls =>
    match process_line_conv reverse force places l with
    | .ok s =>
      match convLines reverse force places ls with
      | .ok rest => .ok (s :: rest)
      | .error e => .error e
    | .error e => .error e

/-- The output text of convert.py (line 262):
`"\n".join(out_lines) + ("\n" if out_lines else "")`. -/
def convert_tool_output (reverse force : Bool) (places : ℕ) (lines : List PyStr) :
    Except Err PyStr :=
  match convLines reverse force places lines with
  | .ok out => .ok (joinSep '\n' out ++ if out.isEmpty then [] else ['\n'])
  | .error e => .error e

/-! ## convert-coordinates.py (`convert_line`, lines 73–111, and `main`,
lines 154–165) -/

/-- One lat/lon pair conversion (convert-coordinates.py lines 100–109). -/
def convPair (lat_s lon_s : PyStr) : Except Err (PyStr × PyStr) :=
  match pyFloatVal? lat_s, pyFloatVal? lon_s with
  | some lat, some lon => .ok (decimal_to_dms_hem lat true, decimal_to_dms_hem lon false)
  | _, _ => .error .nonNumericPair

/-- The pair loop of convert-coordinates.py lines 98–109 (the singleton case
is unreachable: the caller has already checked the count is even). -/
def convPairs : List PyStr → Except Err (List PyStr)
  | [] => .ok []
  | [_] => .error .oddCoordFields
  | a :: b :: rest =>
    match convPair (strip a) (strip b) with
    | .ok p =>
      match convPairs rest with
      | .ok r => .ok (p.1 :: p.2 :: r)
      | .error e => .error e
    | .error e => .error e

/-- `convert_line(line)` (convert-coordinates.py lines 73–111).  Blank and
comment lines yield the empty string (Python returns `""`). -/
def convert_line (line : PyStr) : Except Err PyStr :=
  let stripped := strip line
  if stripped.isEmpty then .ok []
  else if stripped.head? == some '#' then .ok []
  else
    let parts := splitCh ':' stripped
    if parts.length < 5 then .error .tooFewFields
    else
      let headTwo := parts.take 2
      let tail := parts.getLastD []
      let coord_fields := (parts.drop 2).dropLast
      if coord_fields.length % 2 ≠ 0 then .error .oddCoordFields
      else
        match convPairs coord_fields with
        | .ok out => .ok (joinSep ':' (headTwo ++ out ++ [tail]))
        | .error e => .error e

/-- The accumulation loop of convert-coordinates.py lines 154–158: only
truthy (non-empty) results are kept. -/
def ccLines : List PyStr → Except Err (List PyStr)
  | [] => .ok []
  | l :: ls =>
    match convert_line l with
    | .ok s =>
      match ccLines ls with
      | .ok rest => .ok (if s.isEmpty then rest else s :: rest)
      | .error e => .error e
    | .error e => .error e

/-- The output text of convert-coordinates.py (line 160). -/
def cc_tool_output (lines : List PyStr) : Except Err PyStr :=
  match ccLines lines with
  | .ok out => .ok (joinSep '\n' out ++ if out.isEmpty then [] else ['\n'])
  | .error e => .error e

/-! ## geojson.py -/

/-- GeoJSON geometries produced by `parse_line` (geojson.py lines 64–73).
Coordinates are `(lon, lat)` pairs. -/
inductive Geometry where
  | polygon (rings : List (List (ℚ × ℚ)))
  | lineString (pts : List (ℚ × ℚ))
  deriving DecidableEq

/-- The taxitime property value (geojson.py lines 81–88): parsed as an int if
possible, else as a float, else kept as the raw string. -/
inductive TaxiVal where
  | intVal (n : ℤ)
  | floatVal (q : ℚ)
  | strVal (s : PyStr)
  deriving DecidableEq

/-- The GeoJSON feature dictionary built in geojson.py lines 93–98
(the `properties` sub-dictionary flattened into fields). -/
structure Feature where
  airport : PyStr
  runway : PyStr
  geometry : Geometry
  taxitime : TaxiVal
  remarks : Option (List PyStr)
  raw : PyStr
  deriving DecidableEq

/-- The coordinate-pair loop of geojson.py lines 58–62: parse `lat` then
`lon` with `_to_float` and store the pair swapped as `(lon, lat)`.  The
singleton case is unreachable (evenness was checked by the caller). -/
def buildCoords : List PyStr → Except Err (List (ℚ × ℚ))
  | [] => .ok []
  | [_] => .error .badCoordCount
  | a :: b :: rest =>
    match pyFloatVal? (strip a) with
    | none => .error .badFloatTok
    | some lat =>
      match pyFloatVal? (strip b) with
      | none => .error .badFloatTok
      | some lon =>
        match buildCoords rest with
        | .ok r => .ok ((lon, lat) :: r)
        | .error e => .error e

/-- Geometry selection (geojson.py lines 64–73): 4 points → closed Polygon
ring, 2 points → LineString, anything else → LineString fallback. -/
def mkGeom (coords : List (ℚ × ℚ)) : Geometry :=
  if coords.length = 4 then .polygon [coords ++ [coords.headD (0, 0)]]
  else if coords.length = 2 then .lineString coords
  else .lineString coords

/-- Taxitime parsing (geojson.py lines 81–88).  (A non-finite float literal
such as `inf` is kept as a string in this model; Python would store an
infinite float.) -/
def taxiVal (s : PyStr) : TaxiVal :=
  match pyInt? s with
  | some n => .intVal n
  | none =>
    match pyFloatVal? s with
    | some q => .floatVal q
    | none => .strVal s

/-- geojson.py line 43: the remarks-detection test — the last field (after
airport and runway) contains a comma. -/
def gjHasRem (parts : List PyStr) : Bool :=
  !(parts.drop 2).isEmpty && ((parts.drop 2).getLastD []).contains ','

/-- geojson.py line 44: the parsed remarks list (stripped, empties dropped). -/
def gjRemarks (parts : List PyStr) : Option (List PyStr) :=
  if gjHasRem parts then
    some (((splitCh ',' ((parts.drop 2).getLastD [])).map strip).filter (fun r => !r.isEmpty))
  else none

/-- geojson.py lines 39–45: the fields after airport/runway, minus a trailing
comma-bearing remarks token. -/
def gjRest (parts : List PyStr) : List PyStr :=
  if gjHasRem parts then (parts.drop 2).dropLast else parts.drop 2

/-- `parse_line(line)` (geojson.py lines 26–98).  `ok none` models the
`return None` paths (comment/blank/short/empty-rest lines, silently
skipped). -/
def parse_line (line : PyStr) : Except Err (Option Feature) :=
  let l := strip line
  if l.isEmpty || l.head? == some '#' then .ok none
  else
    let parts := splitCh ':' l
    if parts.length < 3 then .ok none
    else
      let airport := strip (parts.headD [])
      let runway := strip ((parts.drop 1).headD [])
      let rest := gjRest parts
      if rest.isEmpty then .ok none
      else
        let taxitime_str := strip (rest.getLastD [])
        let coord_tokens := rest.dropLast
        if coord_tokens.length < 4 ∨ coord_tokens.length % 2 ≠ 0 then .error .badCoordCount
        else
          match buildCoords coord_tokens with
          | .ok coords =>
            .ok (some { airport := airport, runway := runway, geometry := mkGeom coords,
                        taxitime := taxiVal taxitime_str, remarks := gjRemarks parts, raw := l })
          | .error e => .error e

/-- `convert_file` (geojson.py lines 101–112): parse every line, abort on the
first error, keep the non-`None` features in order.  (The line number added
to the message is not modelled.) -/
def convert_file : List PyStr → Except Err (List Feature)
  | [] => .ok []
  | l :: ls =>
    match parse_line l with
    | .ok feat =>
      match convert_file ls with
      | .ok rest => .ok (match feat with | some f => f :: rest | none => rest)
      | .error e => .error e
    | .error e => .error e

/-! ## JSON serialisation (the model of `json.dumps(obj, indent=2)` used in
geojson.py line 124) -/

/-- The opening brace character. -/
def openB : Char := Char.ofNat 123

/-- The closing brace character. -/
def closeB : Char := Char.ofNat 125

/-- JSON values as produced by the geojson tool. -/
inductive Json where
  | str (s : PyStr)
  | intNum (n : ℤ)
  | floatNum (q : ℚ)
  | arr (xs : List Json)
  | obj (kvs : List (PyStr × Json))

/-- Hexadecimal digit (lower case), for `\uXXXX` escapes. -/
def hexDigit (n : ℕ) : Char := if n < 10 then digitChar n else Char.ofNat (87 + n)

/-- JSON string escaping with `ensure_ascii=True` (characters above the
basic multilingual plane are outside the model). -/
def escChar (c : Char) : PyStr :=
  if c = '"' then ['\\', '"']
  else if c = '\\' then ['\\', '\\']
  else if c = '\n' then ['\\', 'n']
  else if c = '\r' then ['\\', 'r']
  else if c = '\t' then ['\\', 't']
  else if c = Char.ofNat 8 then ['\\', 'b']
  else if c = Char.ofNat 12 then ['\\', 'f']
  else if c.toNat < 32 || 127 ≤ c.toNat then
    ['\\', 'u', hexDigit (c.toNat / 4096 % 16), hexDigit (c.toNat / 256 % 16),
     hexDigit (c.toNat / 16 % 16), hexDigit (c.toNat % 16)]
  else [c]

/-- A JSON string literal with quotes and escapes. -/
def jsonStr (s : PyStr) : PyStr := '"' :: (s.map escChar).flatten ++ ['"']

/-- Decimal rendering of a float value.  Modelled for values with a finite
decimal expansion (every coordinate parsed from a decimal literal is one);
Python's shortest-round-trip `repr` prints exactly this expansion for such
values.  Other rationals render as `num/den` (unreachable from the tool's
inputs). -/
def decRepr (q : ℚ) : PyStr :=
  let sign : PyStr := if q.num < 0 then ['-'] else []
  let a := qAbs q
  match (List.range 400).find? (fun k => (qMul a (Rat.divInt ((10 : ℤ) ^ k) 1)).den == 1) with
  | some k =>
    let m := (qMul a (Rat.divInt ((10 : ℤ) ^ k) 1)).num.natAbs
    if k = 0 then sign ++ natDigits m ++ pystr ".0"
    else sign ++ natDigits (m / 10 ^ k) ++ '.' :: padNat k (m % 10 ^ k)
  | none => sign ++ natDigits q.num.natAbs ++ '/' :: natDigits q.den

mutual

/-- `json.dumps(v, indent=2)` at nesting level `ind` (the model of the
serialiser used by geojson.py line 124; separators are the defaults used
with `indent`, i.e. `","` and `": "`). -/
def dumpVal (ind : ℕ) : Json → PyStr
  | .str s => jsonStr s
  | .intNum n => (if n < 0 then ['-'] else []) ++ natDigits n.natAbs
  | .floatNum q => decRepr q
  | .arr [] => pystr "[]"
  | .arr (x :: xs) =>
    '[' :: '\n' :: dumpItems (ind + 2) (x :: xs) ++ '\n' :: List.replicate ind ' ' ++ [']']
  | .obj [] => [openB, closeB]
  | .obj (kv :: kvs) =>
    openB :: '\n' :: dumpEntries (ind + 2) (kv :: kvs) ++ '\n' :: List.replicate ind ' ' ++ [closeB]

/-- Array items, one per line at indentation `ind`, comma-separated. -/
def dumpItems (ind : ℕ) : List Json → PyStr
  | [] => []
  | [x] => List.replicate ind ' ' ++ dumpVal ind x
  | x :: y :: xs =>
    List.replicate ind ' ' ++ dumpVal ind x ++ ',' :: '\n' :: dumpItems ind (y :: xs)

/-- Object entries, one per line at indentation `ind`, comma-separated. -/
def dumpEntries (ind : ℕ) : List (PyStr × Json) → PyStr
  | [] => []
  | [(k, v)] => List.replicate ind ' ' ++ jsonStr k ++ ':' :: ' ' :: dumpVal ind v
  | (k, v) :: kv :: kvs =>
    List.replicate ind ' ' ++ jsonStr k ++ ':' :: ' ' :: dumpVal ind v ++
      ',' :: '\n' :: dumpEntries ind (kv :: kvs)

end

/-- A coordinate pair as a JSON array (Python tuples serialise as arrays). -/
def pairJson (p : ℚ × ℚ) : Json := .arr [.floatNum p.1, .floatNum p.2]

/-- The `geometry` dictionary (geojson.py lines 68, 70, 73). -/
def geomJson : Geometry → Json
  | .polygon rings =>
    .obj [(pystr "type", .str (pystr "Polygon")),
          (pystr "coordinates", .arr (rings.map (fun r => .arr (r.map pairJson))))]
  | .lineString pts =>
    .obj [(pystr "type", .str (pystr "LineString")),
          (pystr "coordinates", .arr (pts.map pairJson))]

/-- The JSON value of a taxitime property. -/
def taxiJson : TaxiVal → Json
  | .intVal n => .intNum n
  | .floatVal q => .floatNum q
  | .strVal s => .str s

/-- The feature dictionary (geojson.py lines 93–98), in insertion order. -/
def featureJson (f : Feature) : Json :=
  .obj [(pystr "type", .str (pystr "Feature")),
        (pystr "geometry", geomJson f.geometry),
        (pystr "properties", .obj
          ([(pystr "airport", .str f.airport),
            (pystr "runway", .str f.runway),
            (pystr "taxitime", taxiJson f.taxitime)] ++
           (match f.remarks with
            | some rs => [(pystr "remarks", .arr (rs.map Json.str))]
            | none => []))),
        (pystr "raw", .str f.raw)]

/-- The FeatureCollection dictionary (geojson.py line 112). -/
def fcJson (fs : List Feature) : Json :=
  .obj [(pystr "type", .str (pystr "FeatureCollection")),
        (pystr "features", .arr (fs.map featureJson))]

/-- The text written to the output file by geojson.py lines 122–124:
`json.dumps(convert_file(...), indent=2)`. -/
def geojson_output (lines : List PyStr) : Except Err PyStr :=
  match convert_file lines with
  | .ok fs => .ok (dumpVal 0 (fcJson fs))
  | .error e => .error e

/-! ## Scratch checks -/

example : looks_like_dms (pystr "N049.38.04.530") = true := by decide
example : looks_like_dms (pystr "50.9019") = false := by decide
example : looks_like_decimal (pystr " -50.9019 ") = true := by decide
example : looks_like_decimal (pystr "N049.38.04.530") = false := by decide
example : looks_like_decimal (pystr "nan") = true := by decide
example : dms_hem_to_decimal (pystr "N050.54.03.056") true =
    .ok (Rat.divInt 22905382 450000) := by decide
example : pyFloatVal? (pystr "1.5e-3") = some (Rat.divInt 3 2000) := by decide
example : format_decimal (Rat.divInt 22905382 450000) 7 = pystr "50.9008489" := by decide
example : convert_line (pystr "KXYZ:09:50.9008489:4.4756856:TAIL") =
    .ok (pystr "KXYZ:09:N050.54.03.056:E004.28.32.468:TAIL") := by decide
example : convert_line (pystr "  # comment") = .ok [] := by decide
example : process_line_conv false false 7 (pystr "# note") = .ok (pystr "# note") := by decide

/-! ## Claims -/

/-- **C6**: the generic transcoder's `convert_line` maps
`"KXYZ:09:50.9008489:4.4756856:TAIL"` to
`"KXYZ:09:N050.54.03.056:E004.28.32.468:TAIL"`; in particular
`decimal_to_dms_hem(50.9008489, is_lat=true) = "N050.54.03.056"` and
`decimal_to_dms_hem(4.4756856, is_lat=false) = "E004.28.32.468"`. -/
theorem C6_generic_transcoder_example :
    convert_line (pystr "KXYZ:09:50.9008489:4.4756856:TAIL") =
      .ok (pystr "KXYZ:09:N050.54.03.056:E004.28.32.468:TAIL") ∧
    decimal_to_dms_hem (50.9008489 : ℚ) true = pystr "N050.54.03.056" ∧
    decimal_to_dms_hem (4.4756856 : ℚ) false = pystr "E004.28.32.468" := by
  have h1 : (50.9008489 : ℚ) = Rat.divInt 509008489 10000000 := by
    rw [Rat.divInt_eq_div]; norm_num
  have h2 : (4.4756856 : ℚ) = Rat.divInt 44756856 10000000 := by
    rw [Rat.divInt_eq_div]; norm_num
  refine ⟨by decide, ?_, ?_⟩
  · rw [h1]; decide
  · rw [h2]; decide

/-- **C2**: in `decimal_to_dms_hem`, whenever the rounded seconds value is at
least 60 the carry cascade subtracts 60 from the seconds and increments the
minute, and resets the minute and increments the degree if the minute then
reaches 60; the example input 50.999999999 (latitude) renders as
`N051.00.00.000` (seconds `00.000`, minute carried, degree carried). -/
theorem C2_carry_propagation :
    (∀ (deg minute : ℤ) (seconds : ℚ), 60 ≤ seconds →
      carry_cascade deg minute seconds =
        if 60 ≤ minute + 1 then (deg + 1, minute + 1 - 60, qSub seconds 60)
        else (deg, minute + 1, qSub seconds 60)) ∧
    decimal_to_dms_hem (50.999999999 : ℚ) true = pystr "N051.00.00.000" := by
  constructor
  · intro deg minute seconds h
    rw [carry_cascade]
    simp only [if_pos h]
    by_cases hm : 60 ≤ minute + 1
    · simp [hm]
    · simp [hm]
  · have h : (50.999999999 : ℚ) = Rat.divInt 50999999999 1000000000 := by
      rw [Rat.divInt_eq_div]; norm_num
    rw [h]; decide

/-- **C2 witness**: the carry statement applied at `deg = 50`, `minute = 59`,
`seconds = 60`: both cascades fire and yield degree 51, minute 0, seconds 0. -/
theorem C2_carry_propagation_witness : carry_cascade 50 59 60 = (51, 0, 0) := by
  have h := C2_carry_propagation.1 50 59 60 (by decide)
  rw [h]; decide

/-- **C3** (evaluation at the failing input): the rendering stage of
`decimal_to_dms_hem` on `deg = 50`, `minute = 5`, `seconds = 59.9996` — whose
millisecond part `round((seconds - sec_int) * 1000)` rounds up to 1000 and
whose second carry reaches the minute but not the degree — renders the stale
pre-carry minute `05` instead of the incremented minute `06`. -/
theorem C3_second_cascade_stale_minute :
    rhe (qMul (qSub (Rat.divInt 599996 10000)
      ((pyTrunc (Rat.divInt 599996 10000) : ℤ) : ℚ)) 1000) = 1000 ∧
    dms_render 'N' 50 5 (Rat.divInt 599996 10000) = pystr "N050.05.00.000" ∧
    dms_render 'N' 50 5 (Rat.divInt 599996 10000) ≠ pystr "N050.06.00.000" := by
  refine ⟨by decide, by decide, by decide⟩

/-- **C4**: for every list of 8 coordinate-position tokens, `detect_mode`
returns `some true` when all 8 look like DMS and none like a decimal,
`some false` in the symmetric case, otherwise the majority direction when it
strictly outnumbers the other with at least 4 hits, and `none` otherwise. -/
theorem C4_detect_mode_rule :
    ∀ (p0 p1 : PyStr) (cf : List PyStr), cf.length = 8 →
      detect_mode (p0 :: p1 :: cf) =
        (let dms_hits := cf.countP looks_like_dms
         let dec_hits := cf.countP looks_like_decimal
         if dms_hits = 8 ∧ dec_hits = 0 then some true
         else if dec_hits = 8 ∧ dms_hits = 0 then some false
         else if dms_hits > dec_hits ∧ dms_hits ≥ 4 then some true
         else if dec_hits > dms_hits ∧ dec_hits ≥ 4 then some false
         else none) := by
  intro p0 p1 cf h
  rw [detect_mode]
  simp only [List.drop_succ_cons, List.drop_zero]
  have ht : List.take 8 cf = cf := by rw [← h]; exact List.take_length cf
  simp only [ht]

/-- **C4 witness**: 5 DMS tokens + 3 decimal tokens give `some true`
(majority ≥ 4), and 4 DMS + 4 decimal tokens give `none`, via
`C4_detect_mode_rule` at those token lists. -/
theorem C4_detect_mode_rule_witness :
    detect_mode (pystr "EBBR" :: pystr "25L" ::
      [pystr "N050.54.03.056", pystr "S001.02.03.004", pystr "E004.28.32.468",
       pystr "W010.00.00.000", pystr "n049.38.04.530", pystr "50.9019",
       pystr "-4.5", pystr "0"]) = some true ∧
    detect_mode (pystr "EBBR" :: pystr "25L" ::
      [pystr "N050.54.03.056", pystr "S001.02.03.004", pystr "E004.28.32.468",
       pystr "W010.00.00.000", pystr "50.9019", pystr "-4.5",
       pystr "0", pystr "1e3"]) = none := by
  constructor
  · rw [C4_detect_mode_rule _ _ _ (by decide)]; decide
  · rw [C4_detect_mode_rule _ _ _ (by decide)]; decide

/-- **C10**: a non-comment, non-blank geojson input line with fewer than 3
colon fields, or whose fields after removing a trailing comma-bearing remarks
token leave nothing, is silently skipped by `parse_line` (`ok none`: no
feature, no error); while a surviving coordinate-token count that is below 4
or odd raises the bad-count error. -/
theorem C10_geojson_silent_skip :
    ∀ line : PyStr, strip line ≠ [] → (strip line).head? ≠ some '#' →
      ((splitCh ':' (strip line)).length < 3 → parse_line line = .ok none) ∧
      (3 ≤ (splitCh ':' (strip line)).length →
        (gjRest (splitCh ':' (strip line)) = [] → parse_line line = .ok none) ∧
        (gjRest (splitCh ':' (strip line)) ≠ [] →
          ((gjRest (splitCh ':' (strip line))).dropLast.length < 4 ∨
           (gjRest (splitCh ':' (strip line))).dropLast.length % 2 ≠ 0) →
          parse_line line = .error .badCoordCount)) := by
  intro line hne hh
  obtain ⟨a, as, hl⟩ : ∃ a as, strip line = a :: as := by
    cases hstrip : strip line with
    | nil => exact absurd hstrip hne
    | cons a as => exact ⟨a, as, rfl⟩
  rw [hl] at hh
  have ha : (a == '#') = false := by
    simp only [List.head?_cons, ne_eq, Option.some.injEq] at hh
    simpa using hh
  have hcond : (((a :: as : PyStr).isEmpty || (a :: as : PyStr).head? == some '#')) = false := by
    simp [ha]
  refine ⟨?_, ?_⟩
  · intro h3
    rw [hl] at h3
    simp only [parse_line, hl, hcond, Bool.false_eq_true, if_false, if_pos h3]
  · intro h3
    rw [hl] at h3
    refine ⟨?_, ?_⟩
    · intro hrest
      rw [hl] at hrest
      simp only [parse_line, hl, hcond, Bool.false_eq_true, if_false,
        if_neg (Nat.not_lt.mpr h3), hrest, List.isEmpty_nil, if_true]
    · intro hrest hcount
      rw [hl] at hrest hcount
      obtain ⟨r, rs, hr⟩ : ∃ r rs, gjRest (splitCh ':' (a :: as)) = r :: rs := by
        cases hg : gjRest (splitCh ':' (a :: as)) with
        | nil => exact absurd hg hrest
        | cons r rs => exact ⟨r, rs, rfl⟩
      rw [hr] at hcount
      have hh2 : (((a :: as : PyStr).head? == some '#')) = false := by simp [ha]
      simp only [parse_line, hl, hcond, hh2, Bool.false_eq_true, Bool.false_or, if_false,
        if_neg (Nat.not_lt.mpr h3), hr, List.isEmpty_cons, if_pos hcount]

/-- **C10 witness**: `C10_geojson_silent_skip` applied at three concrete
lines — too few fields (`"ab"`), remarks swallowing the only field
(`"a:b:x,y"`), and an empty coordinate-token list (`"a:b:c"`). -/
theorem C10_geojson_silent_skip_witness :
    parse_line (pystr "ab") = .ok none ∧
    parse_line (pystr "a:b:x,y") = .ok none ∧
    parse_line (pystr "a:b:c") = .error .badCoordCount := by
  refine ⟨(C10_geojson_silent_skip (pystr "ab") (by decide) (by decide)).1 (by decide),
    ((C10_geojson_silent_skip (pystr "a:b:x,y") (by decide) (by decide)).2
      (by decide)).1 (by decide),
    ((C10_geojson_silent_skip (pystr "a:b:c") (by decide) (by decide)).2
      (by decide)).2 (by decide) (by decide)⟩

/-- Helper: `mkGeom` on exactly 4 points yields a single closed ring of
5 entries with the first point repeated. -/
theorem mkGeom_four (coords : List (ℚ × ℚ)) (h : coords.length = 4) :
    ∃ c0 cs, coords = c0 :: cs ∧ mkGeom coords = .polygon [coords ++ [c0]] ∧
      (coords ++ [c0]).length = 5 := by
  obtain ⟨c0, cs, rfl⟩ : ∃ c0 cs, coords = c0 :: cs := by
    cases coords with
    | nil => simp at h
    | cons c0 cs => exact ⟨c0, cs, rfl⟩
  refine ⟨c0, cs, rfl, ?_, ?_⟩
  · rw [mkGeom, if_pos h]
    simp [List.headD]
  · have h3 : cs.length = 3 := by simpa using h
    simp [h3]

/-- Helper: `mkGeom` away from 4 points is always a `LineString` over the
points in order. -/
theorem mkGeom_not_four (coords : List (ℚ × ℚ)) (h : coords.length ≠ 4) :
    mkGeom coords = .lineString coords := by
  rw [mkGeom, if_neg h]
  by_cases h2 : coords.length = 2
  · rw [if_pos h2]
  · rw [if_neg h2]

/-- Helper: `buildCoords` pairs up the tokens in order, parsing the
even-index token as latitude and the odd-index one as longitude and storing
them swapped as `(lon, lat)`. -/
theorem buildCoords_pairs :
    ∀ (toks : List PyStr) (coords : List (ℚ × ℚ)), buildCoords toks = .ok coords →
      ∀ k, k < coords.length → ∃ tl tn la lo,
        toks.get? (2 * k) = some tl ∧ toks.get? (2 * k + 1) = some tn ∧
        pyFloatVal? (strip tl) = some la ∧ pyFloatVal? (strip tn) = some lo ∧
        coords.get? k = some (lo, la) := by
  suffices h : ∀ (n : ℕ) (toks : List PyStr), toks.length = n →
      ∀ coords, buildCoords toks = .ok coords →
        ∀ k, k < coords.length → ∃ tl tn la lo,
          toks.get? (2 * k) = some tl ∧ toks.get? (2 * k + 1) = some tn ∧
          pyFloatVal? (strip tl) = some la ∧ pyFloatVal? (strip tn) = some lo ∧
          coords.get? k = some (lo, la) by
    exact fun toks => h toks.length toks rfl
  intro n
  induction n using Nat.strong_induction_on with
  | _ n ih =>
    intro toks hn
    cases toks with
    | nil =>
      intro coords h k hk
      rw [buildCoords] at h
      cases h
      simp at hk
    | cons a t =>
      cases t with
      | nil =>
        intro coords h k hk
        rw [buildCoords] at h
        cases h
      | cons b rest =>
        intro coords h k hk
        rw [buildCoords] at h
        cases hla : pyFloatVal? (strip a) with
        | none => rw [hla] at h; cases h
        | some la =>
          cases hlo : pyFloatVal? (strip b) with
          | none => rw [hla, hlo] at h; cases h
          | some lo =>
            rw [hla, hlo] at h
            cases hr : buildCoords rest with
            | error e => rw [hr] at h; cases h
            | ok r =>
              rw [hr] at h
              cases h
              cases k with
              | zero => exact ⟨a, b, la, lo, rfl, rfl, hla, hlo, rfl⟩
              | succ k =>
                have hk' : k < r.length := by simpa using hk
                have hlen : rest.length < n := by
                  simp only [List.length_cons] at hn
                  omega
                obtain ⟨tl, tn, la', lo', h1, h2, h3, h4, h5⟩ :=
                  ih rest.length hlen rest rfl r hr k hk'
                refine ⟨tl, tn, la', lo', ?_, ?_, h3, h4, ?_⟩
                · simpa [Nat.mul_succ] using h1
                · simpa [Nat.mul_succ] using h2
                · simpa using h5

/-- Helper: inverting a successful `parse_line`: the feature's geometry is
`mkGeom` of the coordinates built from the surviving coordinate tokens. -/
theorem parse_line_ok_geometry (line : PyStr) (f : Feature)
    (h : parse_line line = .ok (some f)) :
    ∃ coords, buildCoords ((gjRest (splitCh ':' (strip line))).dropLast) = .ok coords ∧
      f.geometry = mkGeom coords := by
  simp only [parse_line] at h
  split at h
  · exact absurd h (by simp)
  · split at h
    · exact absurd h (by simp)
    · split at h
      · exact absurd h (by simp)
      · split at h
        · exact absurd h (by simp)
        · split at h
          · rename_i coords hb
            refine ⟨coords, hb, ?_⟩
            simp only [Except.ok.injEq, Option.some.injEq] at h
            rw [← h]
          · exact absurd h (by simp)

/-- **C8**: for every input line accepted by `parse_line`, the feature's
coordinates are the `(lon, lat)` pairs of the coordinate tokens in input
order, and the geometry is: exactly 4 points → a Polygon whose single ring
has 5 entries (first point repeated at the end); exactly 2 points → a
LineString with 2 entries; any other count → a LineString over all points,
never a Polygon. -/
theorem C8_geometry_selection :
    ∀ (line : PyStr) (f : Feature), parse_line line = .ok (some f) →
      ∃ coords, buildCoords ((gjRest (splitCh ':' (strip line))).dropLast) = .ok coords ∧
        f.geometry = mkGeom coords ∧
        (∀ k, k < coords.length → ∃ tl tn la lo,
          ((gjRest (splitCh ':' (strip line))).dropLast).get? (2 * k) = some tl ∧
          ((gjRest (splitCh ':' (strip line))).dropLast).get? (2 * k + 1) = some tn ∧
          pyFloatVal? (strip tl) = some la ∧ pyFloatVal? (strip tn) = some lo ∧
          coords.get? k = some (lo, la)) ∧
        (coords.length = 4 → ∃ c0 cs, coords = c0 :: cs ∧
          f.geometry = .polygon [coords ++ [c0]] ∧ (coords ++ [c0]).length = 5) ∧
        (coords.length = 2 → f.geometry = .lineString coords) ∧
        (coords.length ≠ 4 → ∀ rs, f.geometry ≠ .polygon rs) := by
  intro line f h
  obtain ⟨coords, hb, hg⟩ := parse_line_ok_geometry line f h
  refine ⟨coords, hb, hg, buildCoords_pairs _ _ hb, ?_, ?_, ?_⟩
  · intro h4
    obtain ⟨c0, cs, hc, hm, hl⟩ := mkGeom_four coords h4
    exact ⟨c0, cs, hc, hg.trans hm, hl⟩
  · intro h2
    rw [hg, mkGeom_not_four coords (by omega)]
  · intro h4 rs
    rw [hg, mkGeom_not_four coords h4]
    simp

/-- **C8 witness**: `C8_geometry_selection` applied to a concrete 4-pair
line: the geometry is a Polygon whose ring repeats the first `(lon, lat)`
point. -/
theorem C8_geometry_selection_witness :
    ∃ coords,
      buildCoords ((gjRest (splitCh ':'
        (strip (pystr "R:1:1.0:2.0:3.0:4.0:5.0:6.0:7.0:8.0:30")))).dropLast) = .ok coords ∧
      (Geometry.polygon [[((2 : ℚ), (1 : ℚ)), (4, 3), (6, 5), (8, 7), (2, 1)]] :
        Geometry) = mkGeom coords ∧
      (∀ k, k < coords.length → ∃ tl tn la lo,
        ((gjRest (splitCh ':'
          (strip (pystr "R:1:1.0:2.0:3.0:4.0:5.0:6.0:7.0:8.0:30")))).dropLast).get? (2 * k) =
            some tl ∧
        ((gjRest (splitCh ':'
          (strip (pystr "R:1:1.0:2.0:3.0:4.0:5.0:6.0:7.0:8.0:30")))).dropLast).get? (2 * k + 1) =
            some tn ∧
        pyFloatVal? (strip tl) = some la ∧ pyFloatVal? (strip tn) = some lo ∧
        coords.get? k = some (lo, la)) ∧
      (coords.length = 4 → ∃ c0 cs, coords = c0 :: cs ∧
        (Geometry.polygon [[((2 : ℚ), (1 : ℚ)), (4, 3), (6, 5), (8, 7), (2, 1)]] : Geometry) =
          .polygon [coords ++ [c0]] ∧ (coords ++ [c0]).length = 5) ∧
      (coords.length = 2 →
        (Geometry.polygon [[((2 : ℚ), (1 : ℚ)), (4, 3), (6, 5), (8, 7), (2, 1)]] : Geometry) =
          .lineString coords) ∧
      (coords.length ≠ 4 → ∀ rs,
        (Geometry.polygon [[((2 : ℚ), (1 : ℚ)), (4, 3), (6, 5), (8, 7), (2, 1)]] : Geometry) ≠
          .polygon rs) :=
  C8_geometry_selection (pystr "R:1:1.0:2.0:3.0:4.0:5.0:6.0:7.0:8.0:30")
    { airport := pystr "R", runway := pystr "1",
      geometry := .polygon [[((2 : ℚ), (1 : ℚ)), (4, 3), (6, 5), (8, 7), (2, 1)]],
      taxitime := .intVal 30, remarks := none,
      raw := pystr "R:1:1.0:2.0:3.0:4.0:5.0:6.0:7.0:8.0:30" } (by decide)

/-- The spec's hemisphere-consistency condition: first character (either
case) is N/S for latitude, E/W for longitude. -/
def hemConsistent (is_lat : Bool) (c : Char) : Prop :=
  if is_lat then asciiUpper c = 'N' ∨ asciiUpper c = 'S'
  else asciiUpper c = 'E' ∨ asciiUpper c = 'W'

/-- Helper: on a string whose stripped form is `h :: r :: t` with a
consistent hemisphere letter, `dms_hem_to_decimal` proceeds to the group
analysis of `r :: t` (the body below the two hemisphere checks). -/
theorem dms_hem_to_decimal_eq_body (text : PyStr) (b : Bool) (h : Char) (r : Char)
    (t : PyStr) (hs : strip text = h :: r :: t) (hc : hemConsistent b h) :
    dms_hem_to_decimal text b =
      (match splitCh '.' (r :: t) with
      | [g0, g1, g2, g3] =>
        match pyInt? g0, pyInt? g1, pyInt? g2, pyInt? g3 with
        | some deg, some minute, some sec, some msec =>
          if ¬(0 ≤ minute ∧ minute < 60) then .error .minutesRange
          else if ¬(0 ≤ sec ∧ sec < 60) then .error .secondsRange
          else if ¬(0 ≤ msec ∧ msec < 1000) then .error .msecRange
          else
            let seconds : ℚ := qAdd (sec : ℚ) (qDiv (msec : ℚ) 1000)
            let dec : ℚ := qAdd (qAdd (deg : ℚ) (qDiv (minute : ℚ) 60)) (qDiv seconds 3600)
            .ok (if asciiUpper h == 'S' || asciiUpper h == 'W' then -dec else dec)
        | _, _, _, _ => .error .nonNumeric
      | _ => .error .badGroups) := by
  cases b with
  | true =>
    have hbeq : (asciiUpper h == 'N' || asciiUpper h == 'S') = true := by
      simp only [hemConsistent, if_true] at hc
      rcases hc with h1 | h1 <;> simp [h1]
    simp only [dms_hem_to_decimal, hs, hbeq, Bool.not_true, Bool.and_false, Bool.false_and,
      Bool.false_eq_true, if_false]
  | false =>
    have hbeq : (asciiUpper h == 'E' || asciiUpper h == 'W') = true := by
      simp only [hemConsistent, if_false, Bool.false_eq_true] at hc
      rcases hc with h1 | h1 <;> simp [h1]
    simp only [dms_hem_to_decimal, hs, hbeq, Bool.not_true, Bool.and_false, Bool.false_and,
      Bool.false_eq_true, if_false, Bool.not_false, Bool.and_true]

/-- **C5**: `dms_hem_to_decimal` raises a format error when the (stripped)
input is empty, when its first character is not a hemisphere letter
consistent with the axis (either case), or when the remainder does not split
into exactly 4 dot-separated `int`-parseable groups; it raises a range error
when minutes or seconds lie outside `[0,60)` or milliseconds outside
`[0,1000)`; and on inputs passing all checks it returns
`deg + minute/60 + (sec + msec/1000)/3600`, negated exactly when the
hemisphere letter is S or W. -/
theorem C5_dms_parser_contract :
    ∀ (text : PyStr) (b : Bool),
      (strip text = [] → ∃ e, dms_hem_to_decimal text b = .error e ∧ e.isFormatErr = true) ∧
      (∀ h rest, strip text = h :: rest →
        (¬ hemConsistent b h →
          ∃ e, dms_hem_to_decimal text b = .error e ∧ e.isFormatErr = true) ∧
        (hemConsistent b h →
          ((splitCh '.' rest).length ≠ 4 ∨ (∃ g ∈ splitCh '.' rest, pyInt? g = none) →
            ∃ e, dms_hem_to_decimal text b = .error e ∧ e.isFormatErr = true) ∧
          (∀ g0 g1 g2 g3 d m sc ms,
            splitCh '.' rest = [g0, g1, g2, g3] →
            pyInt? g0 = some d → pyInt? g1 = some m → pyInt? g2 = some sc →
            pyInt? g3 = some ms →
            ((¬(0 ≤ m ∧ m < 60) ∨ ¬(0 ≤ sc ∧ sc < 60) ∨ ¬(0 ≤ ms ∧ ms < 1000)) →
              ∃ e, dms_hem_to_decimal text b = .error e ∧ e.isRangeErr = true) ∧
            ((0 ≤ m ∧ m < 60) → (0 ≤ sc ∧ sc < 60) → (0 ≤ ms ∧ ms < 1000) →
              dms_hem_to_decimal text b =
                .ok (if asciiUpper h = 'S' ∨ asciiUpper h = 'W' then
                       -((d : ℚ) + (m : ℚ) / 60 + ((sc : ℚ) + (ms : ℚ) / 1000) / 3600)
                     else
                       (d : ℚ) + (m : ℚ) / 60 + ((sc : ℚ) + (ms : ℚ) / 1000) / 3600))))) := by
  intro text b
  constructor
  · intro hempty
    exact ⟨.tooShort, by simp only [dms_hem_to_decimal, hempty], rfl⟩
  · intro h rest hs
    cases rest with
    | nil =>
      have hts : dms_hem_to_decimal text b = .error .tooShort := by
        simp only [dms_hem_to_decimal, hs]
      refine ⟨fun _ => ⟨.tooShort, hts, rfl⟩, fun _ => ⟨fun _ => ⟨.tooShort, hts, rfl⟩, ?_⟩⟩
      intro g0 g1 g2 g3 d m sc ms hsplit
      simp [splitCh] at hsplit
    | cons r t =>
      constructor
      · intro hnc
        cases b with
        | true =>
          simp only [hemConsistent, if_true, not_or] at hnc
          have hbeq : (asciiUpper h == 'N' || asciiUpper h == 'S') = false := by
            simp [hnc.1, hnc.2]
          refine ⟨.badLatHem, ?_, rfl⟩
          simp only [dms_hem_to_decimal, hs, hbeq, Bool.not_false, Bool.and_true, if_true]
        | false =>
          simp only [hemConsistent, if_false, Bool.false_eq_true, not_or] at hnc
          have hbeq : (asciiUpper h == 'E' || asciiUpper h == 'W') = false := by
            simp [hnc.1, hnc.2]
          refine ⟨.badLonHem, ?_, rfl⟩
          simp only [dms_hem_to_decimal, hs, hbeq, Bool.false_and, Bool.false_eq_true,
            if_false, Bool.not_false, Bool.and_true, Bool.not_true, if_true]
      · intro hc
        have hbody := dms_hem_to_decimal_eq_body text b h r t hs hc
        constructor
        · intro hbad
          rw [hbody]
          rcases hsp : splitCh '.' (r :: t) with _ | ⟨a0, _ | ⟨a1, _ | ⟨a2, _ | ⟨a3, _ | ⟨a4, tl⟩⟩⟩⟩⟩
          · exact ⟨.badGroups, rfl, rfl⟩
          · exact ⟨.badGroups, rfl, rfl⟩
          · exact ⟨.badGroups, rfl, rfl⟩
          · exact ⟨.badGroups, rfl, rfl⟩
          · rcases hbad with hlen | ⟨g, hg, hgnone⟩
            · rw [hsp] at hlen
              simp at hlen
            · rw [hsp] at hg
              cases h0 : pyInt? a0 with
              | none => exact ⟨.nonNumeric, by dsimp only; rw [h0], rfl⟩
              | some d0 =>
                cases h1 : pyInt? a1 with
                | none => exact ⟨.nonNumeric, by dsimp only; rw [h0, h1], rfl⟩
                | some d1 =>
                  cases h2 : pyInt? a2 with
                  | none => exact ⟨.nonNumeric, by dsimp only; rw [h0, h1, h2], rfl⟩
                  | some d2 =>
                    cases h3 : pyInt? a3 with
                    | none => exact ⟨.nonNumeric, by dsimp only; rw [h0, h1, h2, h3], rfl⟩
                    | some d3 =>
                      exfalso
                      simp only [List.mem_cons, List.not_mem_nil, or_false] at hg
                      rcases hg with rfl | rfl | rfl | rfl
                      · rw [h0] at hgnone; cases hgnone
                      · rw [h1] at hgnone; cases hgnone
                      · rw [h2] at hgnone; cases hgnone
                      · rw [h3] at hgnone; cases hgnone
          · exact ⟨.badGroups, rfl, rfl⟩
        · intro g0 g1 g2 g3 d m sc ms hsplit h0 h1 h2 h3
          rw [hbody, hsplit]
          dsimp only
          rw [h0, h1, h2, h3]
          dsimp only
          constructor
          · intro hbad
            rcases hbad with hm | hsc | hms
            · exact ⟨.minutesRange, by rw [if_pos hm], rfl⟩
            · by_cases hm : ¬(0 ≤ m ∧ m < 60)
              · exact ⟨.minutesRange, by rw [if_pos hm], rfl⟩
              · exact ⟨.secondsRange, by rw [if_neg hm, if_pos hsc], rfl⟩
            · by_cases hm : ¬(0 ≤ m ∧ m < 60)
              · exact ⟨.minutesRange, by rw [if_pos hm], rfl⟩
              · by_cases hsc : ¬(0 ≤ sc ∧ sc < 60)
                · exact ⟨.secondsRange, by rw [if_neg hm, if_pos hsc], rfl⟩
                · exact ⟨.msecRange, by rw [if_neg hm, if_neg hsc, if_pos hms], rfl⟩
          · intro hm hsc hms
            rw [if_neg (not_not_intro hm), if_neg (not_not_intro hsc),
              if_neg (not_not_intro hms)]
            simp only [qAdd_eq, qDiv_eq]
            by_cases hsw : asciiUpper h = 'S' ∨ asciiUpper h = 'W'
            · have hbeq : (asciiUpper h == 'S' || asciiUpper h == 'W') = true := by
                rcases hsw with h1 | h1 <;> simp [h1]
              rw [hbeq, if_pos hsw]
              simp
            · have hbeq : (asciiUpper h == 'S' || asciiUpper h == 'W') = false := by
                simp only [not_or] at hsw
                simp [hsw.1, hsw.2]
              rw [hbeq, if_neg hsw]
              simp

/-- **C5 witness**: the contract applied at the concrete valid input
`"N050.54.03.056"` (latitude): the parser returns
`50 + 54/60 + (3 + 56/1000)/3600` un-negated. -/
theorem C5_dms_parser_contract_witness :
    dms_hem_to_decimal (pystr "N050.54.03.056") true =
      .ok (if asciiUpper 'N' = 'S' ∨ asciiUpper 'N' = 'W' then
             -((50 : ℚ) + (54 : ℚ) / 60 + ((3 : ℚ) + (56 : ℚ) / 1000) / 3600)
           else (50 : ℚ) + (54 : ℚ) / 60 + ((3 : ℚ) + (56 : ℚ) / 1000) / 3600) :=
  ((((((C5_dms_parser_contract (pystr "N050.54.03.056") true).2 'N'
      (pystr "050.54.03.056") (by decide)).2 (Or.inl (by decide))).2
    (pystr "050") (pystr "54") (pystr "03") (pystr "056") 50 54 3 56
    (by decide) (by decide) (by decide) (by decide) (by decide)).2)
    (by decide) (by decide) (by decide))

/-- Helper: inverting a successful `convRange` run started at index `i`: the
output has the same length, fields outside code-point indices 2..9 are passed
through unchanged, and fields at 2..9 are the `convField` images (even
offsets from 2 being latitudes). -/
theorem convRange_ok_spec (reverse : Bool) (places : ℕ) :
    ∀ (ps qs : List PyStr) (i : ℕ), convRange reverse places i ps = .ok qs →
      qs.length = ps.length ∧
      ∀ k, k < ps.length →
        (¬(2 ≤ i + k ∧ i + k < 10) → qs.get? k = ps.get? k) ∧
        (2 ≤ i + k → i + k < 10 → ∃ pk ck, ps.get? k = some pk ∧ qs.get? k = some ck ∧
          convField reverse places ((i + k - 2) % 2 == 0) pk = .ok ck) := by
  intro ps
  induction ps with
  | nil =>
    intro qs i h
    rw [convRange] at h
    cases h
    exact ⟨rfl, fun k hk => absurd hk (by simp)⟩
  | cons p ps ih =>
    intro qs i h
    rw [convRange] at h
    by_cases hir : 2 ≤ i ∧ i < 10
    · rw [if_pos hir] at h
      cases hc : convField reverse places ((i - 2) % 2 == 0) p with
      | error e => rw [hc] at h; cases h
      | ok c =>
        rw [hc] at h
        cases hr : convRange reverse places (i + 1) ps with
        | error e => rw [hr] at h; cases h
        | ok rest =>
          rw [hr] at h
          cases h
          obtain ⟨hlen, hspec⟩ := ih rest (i + 1) hr
          refine ⟨by simp [hlen], ?_⟩
          intro k hk
          cases k with
          | zero =>
            refine ⟨fun hn => absurd (by simpa using hir) hn, fun _ _ => ⟨p, c, rfl, rfl, ?_⟩⟩
            simpa using hc
          | succ k =>
            have hk' : k < ps.length := by simpa using hk
            have hik : i + (k + 1) = (i + 1) + k := by omega
            obtain ⟨hs1, hs2⟩ := hspec k hk'
            constructor
            · intro hn
              rw [hik] at hn
              simpa using hs1 hn
            · intro hlo hhi
              rw [hik] at hlo hhi
              obtain ⟨pk, ck, e1, e2, e3⟩ := hs2 hlo hhi
              exact ⟨pk, ck, by simpa using e1, by simpa using e2, by rw [hik]; exact e3⟩
    · rw [if_neg hir] at h
      cases hr : convRange reverse places (i + 1) ps with
      | error e => rw [hr] at h; cases h
      | ok rest =>
        rw [hr] at h
        cases h
        obtain ⟨hlen, hspec⟩ := ih rest (i + 1) hr
        refine ⟨by simp [hlen], ?_⟩
        intro k hk
        cases k with
        | zero =>
          refine ⟨fun _ => rfl, fun hlo hhi => absurd ⟨by simpa using hlo, by simpa using hhi⟩ hir⟩
        | succ k =>
          have hk' : k < ps.length := by simpa using hk
          have hik : i + (k + 1) = (i + 1) + k := by omega
          obtain ⟨hs1, hs2⟩ := hspec k hk'
          constructor
          · intro hn
            rw [hik] at hn
            simpa using hs1 hn
          · intro hlo hhi
            rw [hik] at hlo hhi
            obtain ⟨pk, ck, e1, e2, e3⟩ := hs2 hlo hhi
            exact ⟨pk, ck, by simpa using e1, by simpa using e2, by rw [hik]; exact e3⟩

/-- **C7**: for every non-blank line, `convert_record_line` raises the
field-count error unless the colon-split has exactly 11 or 12 fields; and
whenever it succeeds, the output is the colon-join of a field list of the
same length that agrees with the input fields everywhere outside positions
2..9 (head fields, taxitime, optional remarks) and holds the converted
values (alternating latitude/longitude, starting with latitude) at
positions 2..9. -/
theorem C7_record_frame_effect :
    ∀ (line : PyStr) (reverse : Bool) (places : ℕ), strip line ≠ [] →
      (¬((splitCh ':' (strip line)).length = 11 ∨ (splitCh ':' (strip line)).length = 12) →
        convert_record_line line reverse places =
          .error (.fieldCount (splitCh ':' (strip line)).length)) ∧
      (∀ out, convert_record_line line reverse places = .ok out →
        ∃ outParts, out = joinSep ':' outParts ∧
          outParts.length = (splitCh ':' (strip line)).length ∧
          (∀ k, k < 2 ∨ 10 ≤ k → outParts.get? k = (splitCh ':' (strip line)).get? k) ∧
          (∀ k, 2 ≤ k → k < 10 → ∃ pk ck,
            (splitCh ':' (strip line)).get? k = some pk ∧
            outParts.get? k = some ck ∧
            convField reverse places ((k - 2) % 2 == 0) pk = .ok ck)) := by
  intro line reverse places hne
  have hie : (strip line).isEmpty = false := by
    cases hstrip : strip line with
    | nil => exact absurd hstrip hne
    | cons a as => rfl
  constructor
  · intro hbad
    rw [convert_record_line, hie]
    simp only [Bool.false_eq_true, if_false, if_pos hbad]
  · intro out hout
    rw [convert_record_line, hie] at hout
    simp only [Bool.false_eq_true, if_false] at hout
    by_cases hcnt : ¬((splitCh ':' (strip line)).length = 11 ∨
        (splitCh ':' (strip line)).length = 12)
    · rw [if_pos hcnt] at hout
      cases hout
    · rw [if_neg hcnt] at hout
      cases hcv : convRange reverse places 0 (splitCh ':' (strip line)) with
      | error e => rw [hcv] at hout; cases hout
      | ok o =>
        rw [hcv] at hout
        cases hout
        obtain ⟨hlen, hspec⟩ := convRange_ok_spec reverse places _ o 0 hcv
        refine ⟨o, rfl, hlen, ?_, ?_⟩
        · intro k hk
          by_cases hklen : k < (splitCh ':' (strip line)).length
          · exact (hspec k hklen).1 (by omega)
          · rw [List.get?_eq_none.mpr (by omega), List.get?_eq_none.mpr (by omega)]
        · intro k h2 h10
          have hklen : k < (splitCh ':' (strip line)).length := by omega
          obtain ⟨pk, ck, e1, e2, e3⟩ := (hspec k hklen).2 (by omega) (by omega)
          exact ⟨pk, ck, e1, e2, by simpa using e3⟩

set_option maxRecDepth 8000 in
/-- **C7 witness**: the frame theorem applied to a concrete 11-field record
converted forward: head fields and taxitime survive unchanged in the join,
positions 2..9 carry the DMS conversions. -/
theorem C7_record_frame_effect_witness :
    ∃ outParts,
      pystr "EBBR:25R:N050.54.03.056:E004.28.32.468:N050.00.00.000:E004.00.00.000:N050.30.00.000:E004.30.00.000:N051.00.00.000:E004.15.00.000:30" =
        joinSep ':' outParts ∧
      outParts.length =
        (splitCh ':' (strip (pystr "EBBR:25R:50.9008489:4.4756856:50.0:4.0:50.5:4.5:51.0:4.25:30"))).length ∧
      (∀ k, k < 2 ∨ 10 ≤ k → outParts.get? k =
        (splitCh ':' (strip (pystr "EBBR:25R:50.9008489:4.4756856:50.0:4.0:50.5:4.5:51.0:4.25:30"))).get? k) ∧
      (∀ k, 2 ≤ k → k < 10 → ∃ pk ck,
        (splitCh ':' (strip (pystr "EBBR:25R:50.9008489:4.4756856:50.0:4.0:50.5:4.5:51.0:4.25:30"))).get? k = some pk ∧
        outParts.get? k = some ck ∧
        convField false 7 ((k - 2) % 2 == 0) pk = .ok ck) :=
  (C7_record_frame_effect
    (pystr "EBBR:25R:50.9008489:4.4756856:50.0:4.0:50.5:4.5:51.0:4.25:30") false 7
    (by decide)).2
    (pystr "EBBR:25R:N050.54.03.056:E004.28.32.468:N050.00.00.000:E004.00.00.000:N050.30.00.000:E004.30.00.000:N051.00.00.000:E004.15.00.000:30")
    (by decide)

/-! ## Trailing-newline infrastructure (for the output-text claim) -/

/-- "Ends with exactly one trailing newline": the last character is a newline
and the one before it (if any) is not. -/
def endsOneNL (t : PyStr) : Prop :=
  t.getLast? = some '\n' ∧ t.dropLast.getLast? ≠ some '\n'

/-- Helper: the head surviving `dropWhile` falsifies the predicate. -/
theorem dropWhile_head_false {p : Char → Bool} :
    ∀ (u : List Char) (x : Char) (xs : List Char), u.dropWhile p = x :: xs → p x = false := by
  intro u
  induction u with
  | nil => intro x xs h; cases h
  | cons a u ih =>
    intro x xs h
    rw [List.dropWhile_cons] at h
    by_cases hp : p a = true
    · rw [if_pos hp] at h
      exact ih x xs h
    · rw [if_neg hp] at h
      cases h
      exact Bool.eq_false_iff.mpr hp

/-- Helper: `rstrip("\n")` never leaves a trailing newline. -/
theorem rstripNL_getLast (s : PyStr) (c : Char) (h : (rstripNL s).getLast? = some c) :
    c ≠ '\n' := by
  rw [rstripNL, List.getLast?_reverse] at h
  cases hd : s.reverse.dropWhile (· = '\n') with
  | nil => rw [hd] at h; cases h
  | cons x xs =>
    rw [hd] at h
    have := dropWhile_head_false s.reverse x xs hd
    simp only [List.head?_cons, Option.some.injEq] at h
    subst h
    simpa using this

/-- Helper: a stripped string never ends in whitespace. -/
theorem strip_getLast (s : PyStr) (c : Char) (h : (strip s).getLast? = some c) :
    pySpace c = false := by
  rw [strip, stripRight, List.getLast?_reverse] at h
  cases hd : (stripLeft s).reverse.dropWhile pySpace with
  | nil => rw [hd] at h; cases h
  | cons x xs =>
    rw [hd] at h
    have := dropWhile_head_false (stripLeft s).reverse x xs hd
    simp only [List.head?_cons, Option.some.injEq] at h
    subst h
    exact this

/-- Helper: if `rstrip("\n")` erases the whole string, it was all newlines. -/
theorem rstripNL_eq_nil (s : PyStr) (h : rstripNL s = []) : ∀ c ∈ s, c = '\n' := by
  rw [rstripNL] at h
  have h2 : s.reverse.dropWhile (· = '\n') = [] := by
    have := congrArg List.reverse h
    simpa using this
  intro c hc
  have hcrev : c ∈ s.reverse := by simpa using hc
  have := List.dropWhile_eq_nil_iff.mp h2
  have := this c hcrev
  simpa using this

/-- Helper: `splitCh` never returns the empty list of groups. -/
theorem splitCh_ne_nil (sep : Char) : ∀ s : PyStr, splitCh sep s ≠ [] := by
  intro s
  cases s with
  | nil => simp [splitCh]
  | cons c cs =>
    rw [splitCh]
    by_cases h : c = sep
    · rw [if_pos h]; simp
    · rw [if_neg h]
      cases splitCh sep cs <;> simp

/-- Helper: `joinSep` of a cons with a non-empty tail. -/
theorem joinSep_cons (sep : Char) (g : PyStr) (ps : List PyStr) (h : ps ≠ []) :
    joinSep sep (g :: ps) = g ++ sep :: joinSep sep ps := by
  cases ps with
  | nil => exact absurd rfl h
  | cons q qs => rfl

/-- Helper: splitting then joining restores the string. -/
theorem joinSep_splitCh (sep : Char) : ∀ s : PyStr, joinSep sep (splitCh sep s) = s := by
  intro s
  induction s with
  | nil => rfl
  | cons c cs ih =>
    rw [splitCh]
    by_cases h : c = sep
    · rw [if_pos h, joinSep_cons sep [] _ (splitCh_ne_nil sep cs), ih, h]
      rfl
    · rw [if_neg h]
      cases hsp : splitCh sep cs with
      | nil => exact absurd hsp (splitCh_ne_nil sep cs)
      | cons g gs =>
        rw [hsp] at ih
        cases gs with
        | nil =>
          exact congrArg (c :: ·) ih
        | cons g1 gs1 =>
          rw [joinSep_cons sep (c :: g) _ (by simp), joinSep_cons sep g _ (by simp)] at *
          simpa using ih

/-- Helper: the last element of an append with a non-empty right part. -/
theorem getLast?_append_cons' {α : Type} (u : List α) (a : α) (v : List α) :
    (u ++ a :: v).getLast? = (a :: v).getLast? := by
  induction u with
  | nil => rfl
  | cons x xs ih =>
    cases hxe : xs ++ a :: v with
    | nil => exact absurd hxe (by simp)
    | cons y ys =>
      rw [List.cons_append, hxe, List.getLast?_cons_cons, ← hxe, ih]

/-- Helper: the last character of a separator-join, in terms of the last
group: the group's own last character when the group is non-empty, the
separator when the last group is empty and there are at least two groups. -/
theorem joinSep_getLast (sep : Char) :
    ∀ (ps : List PyStr) (g : PyStr), ps.getLast? = some g →
      (joinSep sep ps).getLast? =
        if ps.length ≤ 1 then g.getLast?
        else if g.isEmpty then some sep else g.getLast? := by
  intro ps
  induction ps with
  | nil => intro g h; cases h
  | cons g0 ps ih =>
    intro g h
    cases ps with
    | nil =>
      have hg : g = g0 := by
        simp only [List.getLast?_singleton, Option.some.injEq] at h
        exact h.symm
      subst hg
      simp [joinSep]
    | cons g1 ps' =>
      cases ps' with
      | nil =>
        have hg : g = g1 := by
          rw [List.getLast?_cons_cons, List.getLast?_singleton] at h
          exact (Option.some.injEq _ _ ▸ h).symm
        subst hg
        rw [joinSep_cons sep g0 _ (by simp), getLast?_append_cons']
        cases g with
        | nil => simp [joinSep]
        | cons x xs =>
          rw [show joinSep sep [(x :: xs : PyStr)] = x :: xs from rfl,
            List.getLast?_cons_cons]
          simp
      | cons g2 ps'' =>
        have hh : ((g1 :: g2 :: ps'' : List PyStr)).getLast? = some g := by
          rw [List.getLast?_cons_cons] at h
          exact h
        have hJ := ih g hh
        rw [joinSep_cons sep g0 _ (by simp), getLast?_append_cons']
        have hJne : joinSep sep (g1 :: g2 :: ps'') ≠ [] := by
          rw [joinSep_cons sep g1 _ (by simp)]
          simp
        have hstep : ((sep :: joinSep sep (g1 :: g2 :: ps'')) : PyStr).getLast? =
            (joinSep sep (g1 :: g2 :: ps'')).getLast? := by
          cases hJ2 : joinSep sep (g1 :: g2 :: ps'') with
          | nil => exact absurd hJ2 hJne
          | cons y ys => rw [List.getLast?_cons_cons]
        rw [hstep, hJ]
        rw [if_neg (show ¬((g1 :: g2 :: ps'' : List PyStr).length ≤ 1) by simp),
          if_neg (show ¬((g0 :: g1 :: g2 :: ps'' : List PyStr).length ≤ 1) by simp)]

/-- Helper: a non-empty last split group ends with the split string's own
last character. -/
theorem splitCh_last_char (sep : Char) (s : PyStr) (g : PyStr)
    (hg : (splitCh sep s).getLast? = some g) (hgne : ¬g.isEmpty = true) :
    g.getLast? = s.getLast? := by
  have hj := joinSep_getLast sep (splitCh sep s) g hg
  rw [joinSep_splitCh] at hj
  rw [hj]
  by_cases hl : (splitCh sep s).length ≤ 1
  · rw [if_pos hl]
  · rw [if_neg hl, if_neg hgne]

/-- Helper: with at least two groups and an empty last group, the split
string ends with the separator itself. -/
theorem splitCh_last_sep (sep : Char) (s : PyStr) (g : PyStr)
    (hg : (splitCh sep s).getLast? = some g) (hge : g.isEmpty = true)
    (hlen : ¬(splitCh sep s).length ≤ 1) :
    s.getLast? = some sep := by
  have hj := joinSep_getLast sep (splitCh sep s) g hg
  rw [joinSep_splitCh] at hj
  rw [hj, if_neg hlen, if_pos hge]

/-- Helper: a successful `convert_record_line` on a non-blank line yields a
non-empty string that does not end with a newline (its last character is the
last character of the stripped input, or a `:` when the last field is
empty). -/
theorem convert_record_line_ok_no_nl (line : PyStr) (reverse : Bool) (places : ℕ)
    (out : PyStr) (hne : strip line ≠ [])
    (h : convert_record_line line reverse places = .ok out) :
    out ≠ [] ∧ out.getLast? ≠ some '\n' := by
  have hie : (strip line).isEmpty = false := by
    cases hstrip : strip line with
    | nil => exact absurd hstrip hne
    | cons a as => rfl
  rw [convert_record_line, hie] at h
  simp only [Bool.false_eq_true, if_false] at h
  by_cases hcnt : ¬((splitCh ':' (strip line)).length = 11 ∨
      (splitCh ':' (strip line)).length = 12)
  · rw [if_pos hcnt] at h
    cases h
  · rw [if_neg hcnt] at h
    push_neg at hcnt
    have hL : 11 ≤ (splitCh ':' (strip line)).length := by
      rcases hcnt with h11 | h12
      · omega
      · omega
    cases hcv : convRange reverse places 0 (splitCh ':' (strip line)) with
    | error e => rw [hcv] at h; cases h
    | ok o =>
      rw [hcv] at h
      cases h
      obtain ⟨hlen, hspec⟩ := convRange_ok_spec reverse places _ o 0 hcv
      -- the last index is ≥ 10, hence untouched
      have hidx : (splitCh ':' (strip line)).length - 1 < (splitCh ':' (strip line)).length := by
        omega
      have hpass := (hspec _ hidx).1 (by omega)
      have holast : o.getLast? = (splitCh ':' (strip line)).getLast? := by
        rw [List.getLast?_eq_get?, List.getLast?_eq_get?, hlen, hpass]
      obtain ⟨g, hg⟩ : ∃ g, (splitCh ':' (strip line)).getLast? = some g := by
        cases hg : (splitCh ':' (strip line)).getLast? with
        | none =>
          rw [List.getLast?_eq_none_iff] at hg
          exact absurd hg (splitCh_ne_nil ':' (strip line))
        | some g => exact ⟨g, rfl⟩
      have holen : ¬o.length ≤ 1 := by omega
      have hjoin := joinSep_getLast ':' o g (holast.trans hg)
      rw [if_neg holen] at hjoin
      by_cases hge : g.isEmpty = true
      · rw [if_pos hge] at hjoin
        constructor
        · intro hnil
          rw [hnil] at hjoin
          cases hjoin
        · rw [hjoin]
          simp
      · rw [if_neg hge] at hjoin
        have hgg : g.getLast? = (strip line).getLast? := splitCh_last_char ':' _ g hg hge
        obtain ⟨c, hc⟩ : ∃ c, (strip line).getLast? = some c := by
          cases hcl : (strip line).getLast? with
          | none =>
            rw [List.getLast?_eq_none_iff] at hcl
            exact absurd hcl hne
          | some c => exact ⟨c, rfl⟩
        have hsp := strip_getLast line c hc
        constructor
        · intro hnil
          rw [hnil] at hjoin
          rw [hgg, hc] at hjoin
          cases hjoin
        · rw [hjoin, hgg, hc]
          intro hcon
          simp only [Option.some.injEq] at hcon
          subst hcon
          simp [pySpace] at hsp

/-- Helper: `convert_line` yields either the empty string (comment/blank
line) or a non-empty string that does not end with a newline. -/
theorem convert_line_ok_no_nl (line : PyStr) (out : PyStr)
    (h : convert_line line = .ok out) :
    out = [] ∨ (out ≠ [] ∧ out.getLast? ≠ some '\n') := by
  rw [convert_line] at h
  by_cases hie : (strip line).isEmpty = true
  · rw [if_pos hie] at h
    cases h
    exact Or.inl rfl
  · rw [if_neg hie] at h
    by_cases hha : ((strip line).head? == some '#') = true
    · rw [if_pos hha] at h
      cases h
      exact Or.inl rfl
    · rw [if_neg hha] at h
      by_cases h5 : (splitCh ':' (strip line)).length < 5
      · rw [if_pos h5] at h
        cases h
      · rw [if_neg h5] at h
        by_cases hodd : ((splitCh ':' (strip line)).drop 2).dropLast.length % 2 ≠ 0
        · rw [if_pos hodd] at h
          cases h
        · rw [if_neg hodd] at h
          cases hcp : convPairs (((splitCh ':' (strip line)).drop 2).dropLast) with
          | error e => rw [hcp] at h; cases h
          | ok ps =>
            rw [hcp] at h
            cases h
            right
            have hne : strip line ≠ [] := by
              intro hcon
              rw [hcon] at hie
              exact hie rfl
            obtain ⟨g, hg⟩ : ∃ g, (splitCh ':' (strip line)).getLast? = some g := by
              cases hg : (splitCh ':' (strip line)).getLast? with
              | none =>
                rw [List.getLast?_eq_none_iff] at hg
                exact absurd hg (splitCh_ne_nil ':' (strip line))
              | some g => exact ⟨g, rfl⟩
            have hgd : (splitCh ':' (strip line)).getLastD [] = g := by
              rw [List.getLastD_eq_getLast?, hg]
              rfl
            have hL : ((splitCh ':' (strip line)).take 2 ++ ps ++
                [(splitCh ':' (strip line)).getLastD []]).getLast? = some g := by
              rw [List.getLast?_concat, hgd]
            have hlen2 : ¬((splitCh ':' (strip line)).take 2 ++ ps ++
                [(splitCh ':' (strip line)).getLastD []]).length ≤ 1 := by
              simp only [List.length_append, List.length_take, List.length_cons,
                List.length_nil]
              omega
            have hjoin := joinSep_getLast ':' _ g hL
            rw [if_neg hlen2] at hjoin
            by_cases hge : g.isEmpty = true
            · rw [if_pos hge] at hjoin
              refine ⟨?_, ?_⟩
              · intro hnil
                rw [hnil] at hjoin
                cases hjoin
              · rw [hjoin]
                simp
            · rw [if_neg hge] at hjoin
              have hgg : g.getLast? = (strip line).getLast? :=
                splitCh_last_char ':' _ g hg hge
              obtain ⟨c, hc⟩ : ∃ c, (strip line).getLast? = some c := by
                cases hcl : (strip line).getLast? with
                | none =>
                  rw [List.getLast?_eq_none_iff] at hcl
                  exact absurd hcl hne
                | some c => exact ⟨c, rfl⟩
              have hsp := strip_getLast line c hc
              refine ⟨?_, ?_⟩
              · intro hnil
                rw [hnil, hgg, hc] at hjoin
                cases hjoin
              · rw [hjoin, hgg, hc]
                intro hcon
                simp only [Option.some.injEq] at hcon
                subst hcon
                simp [pySpace] at hsp

/-- Helper: a line processed by the runway tool's main loop yields a
non-empty entry without trailing newline, provided a fully blank raw line
does not rstrip to nothing. -/
theorem process_line_conv_ok_no_nl (reverse force : Bool) (places : ℕ) (raw out : PyStr)
    (hblank : strip raw = [] → rstripNL raw ≠ [])
    (h : process_line_conv reverse force places raw = .ok out) :
    out ≠ [] ∧ out.getLast? ≠ some '\n' := by
  rw [process_line_conv] at h
  by_cases hcb : (((stripLeft raw).head? == some '#') || (strip raw).isEmpty) = true
  · rw [if_pos hcb] at h
    cases h
    constructor
    · rcases Bool.or_eq_true_iff.mp hcb with hcomment | hempty
      · intro hnil
        have hall := rstripNL_eq_nil raw hnil
        have hsl : stripLeft raw = [] := by
          rw [stripLeft, List.dropWhile_eq_nil_iff]
          intro c hc
          rw [hall c hc]
          rfl
        rw [hsl] at hcomment
        cases hcomment
      · intro hnil
        have hse : strip raw = [] := by
          cases hst : strip raw with
          | nil => rfl
          | cons a as => rw [hst] at hempty; cases hempty
        exact (hblank hse) hnil
    · intro hcon
      exact rstripNL_getLast raw '\n' hcon rfl
  · rw [if_neg hcb] at h
    have hne : strip raw ≠ [] := by
      intro hcon
      apply hcb
      rw [hcon]
      simp
    by_cases hcnt : ¬((splitCh ':' (strip raw)).length = 11 ∨
        (splitCh ':' (strip raw)).length = 12)
    · rw [if_pos hcnt] at h
      cases h
    · rw [if_neg hcnt] at h
      exact convert_record_line_ok_no_nl raw _ places out hne h

/-- Helper: every entry accumulated by the runway tool's main loop is
non-empty and newline-free at its end (under the same blank-line proviso). -/
theorem convLines_ok_entries (reverse force : Bool) (places : ℕ) :
    ∀ (lines out : List PyStr), convLines reverse force places lines = .ok out →
      (∀ l ∈ lines, strip l = [] → rstripNL l ≠ []) →
      ∀ r ∈ out, r ≠ [] ∧ r.getLast? ≠ some '\n' := by
  intro lines
  induction lines with
  | nil =>
    intro out h _ r hr
    rw [convLines] at h
    cases h
    cases hr
  | cons l ls ih =>
    intro out h hbl r hr
    rw [convLines] at h
    cases hp : process_line_conv reverse force places l with
    | error e => rw [hp] at h; cases h
    | ok s =>
      rw [hp] at h
      cases hrest : convLines reverse force places ls with
      | error e => rw [hrest] at h; cases h
      | ok rest =>
        rw [hrest] at h
        cases h
        rcases List.mem_cons.mp hr with rfl | hmem
        · exact process_line_conv_ok_no_nl reverse force places l r
            (hbl l (List.mem_cons_self l ls)) hp
        · exact ih rest hrest (fun x hx => hbl x (List.mem_cons_of_mem l hx)) r hmem

/-- Helper: every entry kept by the generic tool's main loop is non-empty
and newline-free at its end. -/
theorem ccLines_ok_entries :
    ∀ (lines out : List PyStr), ccLines lines = .ok out →
      ∀ r ∈ out, r ≠ [] ∧ r.getLast? ≠ some '\n' := by
  intro lines
  induction lines with
  | nil =>
    intro out h r hr
    rw [ccLines] at h
    cases h
    cases hr
  | cons l ls ih =>
    intro out h r hr
    rw [ccLines] at h
    cases hp : convert_line l with
    | error e => rw [hp] at h; cases h
    | ok s =>
      rw [hp] at h
      cases hrest : ccLines ls with
      | error e => rw [hrest] at h; cases h
      | ok rest =>
        rw [hrest] at h
        cases h
        by_cases hse : s.isEmpty = true
        · rw [if_pos hse] at hr
          exact ih rest hrest r hr
        · rw [if_neg hse] at hr
          rcases List.mem_cons.mp hr with rfl | hmem
          · rcases convert_line_ok_no_nl l r hp with hnil | hprop
            · rw [hnil] at hse
              exact absurd rfl hse
            · exact hprop
          · exact ih rest hrest r hmem

/-- Helper: joining non-empty newline-free entries with `"\n"` and appending
one final newline ends with exactly one trailing newline. -/
theorem outText_endsOne (out : List PyStr) (hne : out ≠ [])
    (hent : ∀ r ∈ out, r ≠ [] ∧ r.getLast? ≠ some '\n') :
    endsOneNL (joinSep '\n' out ++ ['\n']) := by
  constructor
  · rw [List.getLast?_concat]
  · rw [List.dropLast_concat]
    obtain ⟨g, hg⟩ : ∃ g, out.getLast? = some g := by
      cases hgl : out.getLast? with
      | none => exact absurd (List.getLast?_eq_none_iff.mp hgl) hne
      | some g => exact ⟨g, rfl⟩
    obtain ⟨hgne, hgl⟩ := hent g (List.mem_of_getLast?_eq_some hg)
    have hj := joinSep_getLast '\n' out g hg
    have hgie : ¬g.isEmpty = true := by
      cases hgc : g with
      | nil => exact absurd hgc hgne
      | cons x xs => simp
    by_cases hl : out.length ≤ 1
    · rw [if_pos hl] at hj
      rw [hj]
      exact hgl
    · rw [if_neg hl, if_neg hgie] at hj
      rw [hj]
      exact hgl

/-- Helper: the serialised FeatureCollection is non-empty and always ends
with the closing brace, never a newline. -/
theorem geojson_dump_last (fs : List Feature) :
    dumpVal 0 (fcJson fs) ≠ [] ∧ (dumpVal 0 (fcJson fs)).getLast? = some closeB := by
  rw [fcJson, dumpVal]
  have hshape :
      (openB :: '\n' ::
        dumpEntries 2 [(pystr "type", Json.str (pystr "FeatureCollection")),
          (pystr "features", Json.arr (fs.map featureJson))] ++
        '\n' :: List.replicate 0 ' ' ++ [closeB]) =
      ((openB :: '\n' ::
        dumpEntries 2 [(pystr "type", Json.str (pystr "FeatureCollection")),
          (pystr "features", Json.arr (fs.map featureJson))] ++
        '\n' :: List.replicate 0 ' ') ++ [closeB]) := by
    simp
  rw [hshape]
  exact ⟨by simp, List.getLast?_concat _⟩

/-- **C9 counterexample**: the claim "each of the three tools' output text
ends with exactly one trailing newline whenever non-empty" is false: the
GeoJSON tool's file text (here on empty input) is non-empty and has no
trailing newline at all, and the runway tool emits two trailing newlines
when the final input line is blank. -/
theorem C9_trailing_newline_counterexample :
    (∃ t, geojson_output [] = .ok t ∧ t ≠ [] ∧ t.getLast? ≠ some '\n') ∧
    (∃ t, convert_tool_output false false 7 [pystr "# c", []] = .ok t ∧
      t ≠ [] ∧ ¬endsOneNL t) := by
  constructor
  · exact ⟨dumpVal 0 (fcJson []), by decide, by decide, by decide⟩
  · exact ⟨pystr "# c" ++ ['\n', '\n'], by decide, by decide,
      fun hcon => hcon.2 (by decide)⟩

/-- **C9 (amended)**: the generic transcoder's output text ends with exactly
one trailing newline whenever non-empty; the runway transcoder's does too,
provided no input line is blank-but-rstrip-empty (a trailing fully blank
line produces an empty entry and hence a second newline); the GeoJSON tool's
file text is always non-empty and ends with the closing brace, never a
newline (only its stdout summary line is newline-terminated). -/
theorem C9_trailing_newline_amended :
    (∀ (lines : List PyStr) (t : PyStr), cc_tool_output lines = .ok t → t ≠ [] →
      endsOneNL t) ∧
    (∀ (reverse force : Bool) (places : ℕ) (lines : List PyStr) (t : PyStr),
      (∀ l ∈ lines, strip l = [] → rstripNL l ≠ []) →
      convert_tool_output reverse force places lines = .ok t → t ≠ [] → endsOneNL t) ∧
    (∀ (lines : List PyStr) (t : PyStr), geojson_output lines = .ok t →
      t ≠ [] ∧ t.getLast? = some closeB) := by
  refine ⟨?_, ?_, ?_⟩
  · intro lines t h hne
    rw [cc_tool_output] at h
    cases ho : ccLines lines with
    | error e => rw [ho] at h; cases h
    | ok out =>
      rw [ho] at h
      dsimp only at h
      by_cases houte : out.isEmpty = true
      · rw [if_pos houte] at h
        cases h
        have hoe : out = [] := by
          cases hoc : out with
          | nil => rfl
          | cons x xs => rw [hoc] at houte; cases houte
        rw [hoe] at hne
        exact absurd rfl hne
      · rw [if_neg houte] at h
        cases h
        have hone : out ≠ [] := by
          intro hcon
          rw [hcon] at houte
          exact houte rfl
        exact outText_endsOne out hone (ccLines_ok_entries lines out ho)
  · intro reverse force places lines t hbl h hne
    rw [convert_tool_output] at h
    cases ho : convLines reverse force places lines with
    | error e => rw [ho] at h; cases h
    | ok out =>
      rw [ho] at h
      dsimp only at h
      by_cases houte : out.isEmpty = true
      · rw [if_pos houte] at h
        cases h
        have hoe : out = [] := by
          cases hoc : out with
          | nil => rfl
          | cons x xs => rw [hoc] at houte; cases houte
        rw [hoe] at hne
        exact absurd rfl hne
      · rw [if_neg houte] at h
        cases h
        have hone : out ≠ [] := by
          intro hcon
          rw [hcon] at houte
          exact houte rfl
        exact outText_endsOne out hone
          (convLines_ok_entries reverse force places lines out ho hbl)
  · intro lines t h
    rw [geojson_output] at h
    cases hf : convert_file lines with
    | error e => rw [hf] at h; cases h
    | ok fs =>
      rw [hf] at h
      dsimp only at h
      cases h
      exact geojson_dump_last fs

/-- **C9 witness**: the amended statement applied at concrete runs of each
tool (a generic-transcoder record, a runway-tool comment line, and an empty
GeoJSON input). -/
theorem C9_trailing_newline_amended_witness :
    endsOneNL (pystr "KXYZ:09:N050.54.03.056:E004.28.32.468:TAIL" ++ ['\n']) ∧
    endsOneNL (pystr "# x" ++ ['\n']) ∧
    (dumpVal 0 (fcJson []) ≠ [] ∧ (dumpVal 0 (fcJson [])).getLast? = some closeB) := by
  refine ⟨?_, ?_, ?_⟩
  · exact C9_trailing_newline_amended.1 [pystr "KXYZ:09:50.9008489:4.4756856:TAIL"]
      (pystr "KXYZ:09:N050.54.03.056:E004.28.32.468:TAIL" ++ ['\n']) (by decide) (by decide)
  · exact C9_trailing_newline_amended.2.1 false false 7 [pystr "# x"]
      (pystr "# x" ++ ['\n']) (by decide) (by decide) (by decide)
  · exact C9_trailing_newline_amended.2.2 [] (dumpVal 0 (fcJson [])) (by decide)

/-! ## Arithmetic lemmas for the round-trip claim -/

/-- Helper: `pyTrunc` agrees with the floor on non-negative rationals. -/
theorem pyTrunc_eq_floor (q : ℚ) (h : 0 ≤ q) : pyTrunc q = ⌊q⌋ := by
  rw [pyTrunc, Int.tdiv_eq_ediv (Rat.num_nonneg.mpr h) (by positivity), ← qFloor, qFloor_eq]

/-- Helper: `rhe` in closed form over the field operations. -/
theorem rhe_def (q : ℚ) :
    rhe q = if q - ⌊q⌋ < 1 / 2 then ⌊q⌋
      else if (1 : ℚ) / 2 < q - ⌊q⌋ then ⌊q⌋ + 1
      else if ⌊q⌋ % 2 = 0 then ⌊q⌋ else ⌊q⌋ + 1 := by
  simp only [rhe, qFloor_eq, qSub_eq, Rat.divInt_eq_div]
  norm_num

/-- Helper: `rhe` is within a half of its argument. -/
theorem rhe_sub_abs (q : ℚ) : |(rhe q : ℚ) - q| ≤ 1 / 2 := by
  rw [rhe_def]
  have h0 : (⌊q⌋ : ℚ) ≤ q := Int.floor_le q
  have h1 : q < ⌊q⌋ + 1 := Int.lt_floor_add_one q
  by_cases hc1 : q - ⌊q⌋ < 1 / 2
  · rw [if_pos hc1, abs_le]
    constructor <;> linarith
  · rw [if_neg hc1]
    by_cases hc2 : (1 : ℚ) / 2 < q - ⌊q⌋
    · rw [if_pos hc2, abs_le]
      push_cast
      constructor <;> linarith
    · rw [if_neg hc2]
      by_cases hc3 : ⌊q⌋ % 2 = 0
      · rw [if_pos hc3, abs_le]
        constructor <;> linarith
      · rw [if_neg hc3, abs_le]
        push_cast
        constructor <;> linarith

/-- Helper: `rhe` of a non-negative rational is non-negative. -/
theorem rhe_nonneg (q : ℚ) (h : 0 ≤ q) : 0 ≤ rhe q := by
  have hf : 0 ≤ ⌊q⌋ := Int.floor_nonneg.mpr h
  rw [rhe_def]
  by_cases hc1 : q - ⌊q⌋ < 1 / 2
  · rw [if_pos hc1]; exact hf
  · rw [if_neg hc1]
    by_cases hc2 : (1 : ℚ) / 2 < q - ⌊q⌋
    · rw [if_pos hc2]; omega
    · rw [if_neg hc2]
      by_cases hc3 : ⌊q⌋ % 2 = 0
      · rw [if_pos hc3]; exact hf
      · rw [if_neg hc3]; omega

/-- Helper: `rhe` never exceeds an integer upper bound of its argument. -/
theorem rhe_le (q : ℚ) (c : ℤ) (h : q ≤ (c : ℚ)) : rhe q ≤ c := by
  have hfl : ⌊q⌋ ≤ c := by
    have := Int.floor_le_floor h
    simpa using this
  rw [rhe_def]
  by_cases hc1 : q - ⌊q⌋ < 1 / 2
  · rw [if_pos hc1]; exact hfl
  · rw [if_neg hc1]
    have hq : (⌊q⌋ : ℚ) < q := by
      push_neg at hc1
      nlinarith [Int.floor_le q]
    have hlt : ⌊q⌋ < c := by
      by_contra hcon
      push_neg at hcon
      have : c ≤ ⌊q⌋ := hcon
      have hcq : (c : ℚ) ≤ (⌊q⌋ : ℚ) := by exact_mod_cast this
      linarith
    by_cases hc2 : (1 : ℚ) / 2 < q - ⌊q⌋
    · rw [if_pos hc2]; omega
    · rw [if_neg hc2]
      by_cases hc3 : ⌊q⌋ % 2 = 0
      · rw [if_pos hc3]; exact hfl
      · rw [if_neg hc3]; omega

/-- Helper: `rhe` of an integer is that integer. -/
theorem rhe_intCast (k : ℤ) : rhe ((k : ℤ) : ℚ) = k := by
  rw [rhe_def]
  rw [Int.floor_intCast]
  rw [if_pos (by norm_num)]

/-! ## Digit-string lemmas for the round-trip claim -/

/-- Helper: `digitChar` produces a decimal digit character. -/
theorem digitChar_isDigit (n : ℕ) (h : n < 10) : (digitChar n).isDigit = true := by
  interval_cases n <;> decide

/-- Helper: the value of a digit character. -/
theorem digitChar_val (n : ℕ) (h : n < 10) : (digitChar n).toNat - 48 = n := by
  interval_cases n <;> decide

/-- Helper: `digitsVal` over a final digit. -/
theorem digitsVal_append_single (ds : PyStr) (c : Char) :
    digitsVal (ds ++ [c]) = 10 * digitsVal ds + (c.toNat - 48) := by
  rw [digitsVal, digitsVal, List.foldl_append]
  rfl

/-- Helper: `natDigitsAux` with sufficient fuel renders the digits of `n`. -/
theorem natDigitsAux_spec :
    ∀ (fuel n : ℕ), n < fuel →
      digitsVal (natDigitsAux fuel n) = n ∧
      (∀ c ∈ natDigitsAux fuel n, c.isDigit = true) ∧
      natDigitsAux fuel n ≠ [] := by
  intro fuel
  induction fuel with
  | zero => intro n h; omega
  | succ fuel ih =>
    intro n h
    rw [natDigitsAux]
    by_cases h10 : n < 10
    · rw [if_pos h10]
      refine ⟨?_, ?_, by simp⟩
      · rw [show ([digitChar n] : PyStr) = [] ++ [digitChar n] by rfl,
          digitsVal_append_single, digitChar_val n h10]
        simp [digitsVal]
      · intro c hc
        simp only [List.mem_singleton] at hc
        subst hc
        exact digitChar_isDigit n h10
    · rw [if_neg h10]
      have hrec : n / 10 < fuel := by omega
      obtain ⟨hv, hd, hne⟩ := ih (n / 10) hrec
      refine ⟨?_, ?_, by simp⟩
      · rw [digitsVal_append_single, hv, digitChar_val (n % 10) (by omega)]
        omega
      · intro c hc
        rw [List.mem_append] at hc
        rcases hc with hc | hc
        · exact hd c hc
        · simp only [List.mem_singleton] at hc
          subst hc
          exact digitChar_isDigit (n % 10) (by omega)

/-- Helper: `natDigits` renders the digits of `n`. -/
theorem natDigits_spec (n : ℕ) :
    digitsVal (natDigits n) = n ∧ (∀ c ∈ natDigits n, c.isDigit = true) ∧ natDigits n ≠ [] :=
  natDigitsAux_spec (n + 1) n (by omega)

/-- Helper: leading zeros do not change a digit string's value. -/
theorem digitsVal_replicate_zero (z : ℕ) (ds : PyStr) :
    digitsVal (List.replicate z '0' ++ ds) = digitsVal ds := by
  induction z with
  | zero => rfl
  | succ z ih =>
    rw [List.replicate_succ, List.cons_append]
    show digitsVal (List.replicate z '0' ++ ds) = digitsVal ds
    exact ih

/-- Helper: `padNat` consists of digits, is non-empty, and has value `n`. -/
theorem padNat_spec (w n : ℕ) :
    digitsVal (padNat w n) = n ∧ (∀ c ∈ padNat w n, c.isDigit = true) ∧ padNat w n ≠ [] := by
  obtain ⟨hv, hd, hne⟩ := natDigits_spec n
  rw [padNat]
  refine ⟨by rw [digitsVal_replicate_zero, hv], ?_, by simp [hne]⟩
  intro c hc
  rw [List.mem_append] at hc
  rcases hc with hc | hc
  · rw [List.eq_of_mem_replicate hc]
    decide
  · exact hd c hc

/-- Helper: a digit character's code point lies in 48..57. -/
theorem isDigit_toNat (c : Char) (h : c.isDigit = true) :
    48 ≤ c.toNat ∧ c.toNat ≤ 57 := by
  rw [Char.isDigit] at h
  have := (Bool.and_eq_true _ _).mp h
  exact ⟨by simpa using this.1, by simpa using this.2⟩

/-- Helper: a digit character differs from any character with a smaller code
point. -/
theorem isDigit_ne_low (c : Char) (h : c.isDigit = true) (d : Char)
    (hd : d.toNat < 48) : (c = d) = False := by
  obtain ⟨hge, _⟩ := isDigit_toNat c h
  simp only [eq_iff_iff, iff_false]
  intro hc
  subst hc
  omega

/-- Helper: a digit character is not whitespace. -/
theorem isDigit_not_space (c : Char) (h : c.isDigit = true) : pySpace c = false := by
  simp only [pySpace, isDigit_ne_low c h ' ' (by decide), isDigit_ne_low c h '\t' (by decide),
    isDigit_ne_low c h '\n' (by decide), isDigit_ne_low c h '\r' (by decide),
    isDigit_ne_low c h (Char.ofNat 11) (by decide), isDigit_ne_low c h (Char.ofNat 12) (by decide),
    decide_False, Bool.or_self, Bool.or_false]

/-- Helper: `padInt` on a non-negative integer is `padNat` of its magnitude. -/
theorem padInt_nonneg (w : ℕ) (k : ℤ) (h : 0 ≤ k) : padInt w k = padNat w k.natAbs := by
  rw [padInt, if_neg (by omega)]

/-- Helper: stripping leaves a whitespace-free string unchanged. -/
theorem strip_of_no_space (s : PyStr) (h : ∀ c ∈ s, pySpace c = false) : strip s = s := by
  have hl : stripLeft s = s := by
    rw [stripLeft]
    cases s with
    | nil => rfl
    | cons c cs =>
      rw [List.dropWhile_cons, if_neg (by rw [h c (by simp)]; simp)]
  rw [strip, hl, stripRight]
  cases hrev : s.reverse with
  | nil =>
    have : s = [] := by simpa using congrArg List.reverse hrev
    rw [this]
    rfl
  | cons c cs =>
    have hcmem : c ∈ s := by
      rw [← List.mem_reverse, hrev]
      simp
    have hstep : List.dropWhile pySpace (c :: cs) = c :: cs := by
      rw [List.dropWhile_cons, if_neg (by rw [h c hcmem]; simp)]
    rw [hstep, ← hrev, List.reverse_reverse]

/-- Helper: `pyInt?` recovers the value of a zero-padded non-negative
integer. -/
theorem pyInt?_padInt (w : ℕ) (k : ℤ) (hk : 0 ≤ k) : pyInt? (padInt w k) = some k := by
  rw [padInt_nonneg w k hk]
  obtain ⟨hv, hd, hne⟩ := padNat_spec w k.natAbs
  have hstrip : strip (padNat w k.natAbs) = padNat w k.natAbs :=
    strip_of_no_space _ (fun c hc => isDigit_not_space c (hd c hc))
  rw [pyInt?, hstrip]
  obtain ⟨x, xs, hx⟩ : ∃ x xs, padNat w k.natAbs = x :: xs := by
    cases hc : padNat w k.natAbs with
    | nil => exact absurd hc hne
    | cons x xs => exact ⟨x, xs, rfl⟩
  have hxd : x.isDigit = true := hd x (by rw [hx]; simp)
  rw [hx]
  have hxplus : (x = '+') = False := isDigit_ne_low x hxd '+' (by decide)
  have hxminus : (x = '-') = False := isDigit_ne_low x hxd '-' (by decide)
  split
  · rename_i ds heq
    rw [List.cons.injEq] at heq
    exact absurd (hxplus ▸ heq.1) id
  · rename_i ds heq
    rw [List.cons.injEq] at heq
    exact absurd (hxminus ▸ heq.1) id
  · have hall : allDigits (x :: xs) = true := by
      rw [allDigits, List.all_eq_true]
      intro c hc
      exact hd c (by rw [hx]; exact hc)
    rw [if_pos (by simp [hall])]
    rw [← hx, hv]
    congr 1
    omega

/-- Helper: splitting a separator-free string yields one group. -/
theorem splitCh_no_sep (sep : Char) : ∀ (s : PyStr), (∀ c ∈ s, c ≠ sep) →
    splitCh sep s = [s] := by
  intro s
  induction s with
  | nil => intro _; rfl
  | cons c cs ih =>
    intro h
    rw [splitCh, if_neg (h c (by simp)), ih (fun x hx => h x (by simp [hx]))]

/-- Helper: splitting a string with a leading separator-free chunk. -/
theorem splitCh_append (sep : Char) :
    ∀ (a rest : PyStr), (∀ c ∈ a, c ≠ sep) →
      splitCh sep (a ++ sep :: rest) = a :: splitCh sep rest := by
  intro a
  induction a with
  | nil =>
    intro rest _
    rw [List.nil_append, splitCh, if_pos rfl]
  | cons c a' ih =>
    intro rest h
    rw [List.cons_append, splitCh, if_neg (h c (by simp)),
      ih rest (fun x hx => h x (by simp [hx]))]

/-- Helper: when the millisecond part is not 1000, the rendering stage is the
plain concatenation of the four padded fields. -/
theorem dms_render_basic (hem : Char) (deg minute : ℤ) (seconds : ℚ)
    (h : rhe (qMul (qSub seconds ((pyTrunc seconds : ℤ) : ℚ)) 1000) ≠ 1000) :
    dms_render hem deg minute seconds =
      hem :: (padInt 3 deg ++ ('.' :: (padInt 2 minute ++ ('.' ::
        (padInt 2 (pyTrunc seconds) ++ ('.' ::
        padInt 3 (rhe (qMul (qSub seconds ((pyTrunc seconds : ℤ) : ℚ)) 1000)))))))) := by
  rw [dms_render]
  rw [if_neg h]
  simp [List.append_assoc]

/-- Helper: a digit character differs from any low-code-point character,
`≠` form. -/
theorem isDigit_ne_low' (c : Char) (h : c.isDigit = true) (d : Char)
    (hd : d.toNat < 48) : c ≠ d :=
  fun hc => (isDigit_ne_low c h d hd) ▸ hc

/-- Helper: parsing a rendered `HDDD.MM.SS.sss` string recovers
`deg + minute/60 + (sec + msec/1000)/3600`, negated for S/W. -/
theorem parse_rendered (b : Bool) (hem : Char) (D M SI SF : ℤ)
    (hhem : if b then hem = 'N' ∨ hem = 'S' else hem = 'E' ∨ hem = 'W')
    (hD : 0 ≤ D) (hM0 : 0 ≤ M) (hM : M < 60) (hSI0 : 0 ≤ SI) (hSI : SI < 60)
    (hSF0 : 0 ≤ SF) (hSF : SF < 1000) :
    dms_hem_to_decimal
      (hem :: (padInt 3 D ++ ('.' :: (padInt 2 M ++ ('.' ::
        (padInt 2 SI ++ ('.' :: padInt 3 SF))))))) b =
      .ok (if hem = 'S' ∨ hem = 'W' then
             -((D : ℚ) + (M : ℚ) / 60 + ((SI : ℚ) + (SF : ℚ) / 1000) / 3600)
           else (D : ℚ) + (M : ℚ) / 60 + ((SI : ℚ) + (SF : ℚ) / 1000) / 3600) := by
  have hd3 := (padNat_spec 3 D.natAbs).2.1
  have hd2 := (padNat_spec 2 M.natAbs).2.1
  have hdq := (padNat_spec 2 SI.natAbs).2.1
  have hdr := (padNat_spec 3 SF.natAbs).2.1
  rw [padInt_nonneg 3 D hD, padInt_nonneg 2 M hM0, padInt_nonneg 2 SI hSI0,
    padInt_nonneg 3 SF hSF0]
  have hhemsp : pySpace hem = false := by
    cases b with
    | true =>
      rcases (by simpa using hhem : hem = 'N' ∨ hem = 'S') with rfl | rfl <;> decide
    | false =>
      rcases (by simpa using hhem : hem = 'E' ∨ hem = 'W') with rfl | rfl <;> decide
  have hnos : ∀ c ∈ (hem :: (padNat 3 D.natAbs ++ ('.' :: (padNat 2 M.natAbs ++ ('.' ::
      (padNat 2 SI.natAbs ++ ('.' :: padNat 3 SF.natAbs)))))) : PyStr), pySpace c = false := by
    intro c hc
    rcases List.mem_cons.mp hc with rfl | hc
    · exact hhemsp
    rcases List.mem_append.mp hc with hc | hc
    · exact isDigit_not_space c (hd3 c hc)
    rcases List.mem_cons.mp hc with rfl | hc
    · decide
    rcases List.mem_append.mp hc with hc | hc
    · exact isDigit_not_space c (hd2 c hc)
    rcases List.mem_cons.mp hc with rfl | hc
    · decide
    rcases List.mem_append.mp hc with hc | hc
    · exact isDigit_not_space c (hdq c hc)
    rcases List.mem_cons.mp hc with rfl | hc
    · decide
    exact isDigit_not_space c (hdr c hc)
  have hstrip := strip_of_no_space _ hnos
  obtain ⟨x, xs, hx⟩ : ∃ x xs, padNat 3 D.natAbs = x :: xs := by
    cases hcn : padNat 3 D.natAbs with
    | nil => exact absurd hcn (padNat_spec 3 D.natAbs).2.2
    | cons x xs => exact ⟨x, xs, rfl⟩
  have hcons : hem :: (padNat 3 D.natAbs ++ ('.' :: (padNat 2 M.natAbs ++ ('.' ::
      (padNat 2 SI.natAbs ++ ('.' :: padNat 3 SF.natAbs)))))) =
      hem :: x :: (xs ++ ('.' :: (padNat 2 M.natAbs ++ ('.' ::
        (padNat 2 SI.natAbs ++ ('.' :: padNat 3 SF.natAbs)))))) := by
    rw [hx, List.cons_append]
  have hc : hemConsistent b hem := by
    rw [hemConsistent]
    cases b with
    | true =>
      rw [if_pos rfl]
      rcases (by simpa using hhem : hem = 'N' ∨ hem = 'S') with rfl | rfl
      · exact Or.inl (by decide)
      · exact Or.inr (by decide)
    | false =>
      rw [if_neg (by simp)]
      rcases (by simpa using hhem : hem = 'E' ∨ hem = 'W') with rfl | rfl
      · exact Or.inl (by decide)
      · exact Or.inr (by decide)
  rw [dms_hem_to_decimal_eq_body _ b hem x
    (xs ++ ('.' :: (padNat 2 M.natAbs ++ ('.' ::
      (padNat 2 SI.natAbs ++ ('.' :: padNat 3 SF.natAbs))))))
    (by rw [hstrip, hcons]) hc]
  have hback : (x :: (xs ++ ('.' :: (padNat 2 M.natAbs ++ ('.' ::
      (padNat 2 SI.natAbs ++ ('.' :: padNat 3 SF.natAbs)))))) : PyStr) =
      padNat 3 D.natAbs ++ ('.' :: (padNat 2 M.natAbs ++ ('.' ::
        (padNat 2 SI.natAbs ++ ('.' :: padNat 3 SF.natAbs))))) := by
    rw [hx, List.cons_append]
  rw [hback]
  have hsplit : splitCh '.' (padNat 3 D.natAbs ++ ('.' :: (padNat 2 M.natAbs ++ ('.' ::
      (padNat 2 SI.natAbs ++ ('.' :: padNat 3 SF.natAbs)))))) =
      [padNat 3 D.natAbs, padNat 2 M.natAbs, padNat 2 SI.natAbs, padNat 3 SF.natAbs] := by
    rw [splitCh_append '.' _ _ (fun c hcm => isDigit_ne_low' c (hd3 c hcm) '.' (by decide)),
      splitCh_append '.' _ _ (fun c hcm => isDigit_ne_low' c (hd2 c hcm) '.' (by decide)),
      splitCh_append '.' _ _ (fun c hcm => isDigit_ne_low' c (hdq c hcm) '.' (by decide)),
      splitCh_no_sep '.' _ (fun c hcm => isDigit_ne_low' c (hdr c hcm) '.' (by decide))]
  rw [hsplit]
  dsimp only
  rw [← padInt_nonneg 3 D hD, ← padInt_nonneg 2 M hM0, ← padInt_nonneg 2 SI hSI0,
    ← padInt_nonneg 3 SF hSF0, pyInt?_padInt 3 D hD, pyInt?_padInt 2 M hM0,
    pyInt?_padInt 2 SI hSI0, pyInt?_padInt 3 SF hSF0]
  dsimp only
  rw [if_neg (not_not_intro ⟨hM0, hM⟩), if_neg (not_not_intro ⟨hSI0, hSI⟩),
    if_neg (not_not_intro ⟨hSF0, hSF⟩)]
  simp only [qAdd_eq, qDiv_eq]
  cases b with
  | true =>
    rcases (by simpa using hhem : hem = 'N' ∨ hem = 'S') with rfl | rfl
    · rw [show ((asciiUpper 'N' == 'S') || (asciiUpper 'N' == 'W')) = false by decide,
        if_neg (by decide : ¬('N' = 'S' ∨ 'N' = 'W'))]
      simp
    · rw [show ((asciiUpper 'S' == 'S') || (asciiUpper 'S' == 'W')) = true by decide,
        if_pos (by decide : ('S' = 'S' ∨ 'S' = 'W'))]
      simp
  | false =>
    rcases (by simpa using hhem : hem = 'E' ∨ hem = 'W') with rfl | rfl
    · rw [show ((asciiUpper 'E' == 'S') || (asciiUpper 'E' == 'W')) = false by decide,
        if_neg (by decide : ¬('E' = 'S' ∨ 'E' = 'W'))]
      simp
    · rw [show ((asciiUpper 'W' == 'S') || (asciiUpper 'W' == 'W')) = true by decide,
        if_pos (by decide : ('W' = 'S' ∨ 'W' = 'W'))]
      simp

/-- Helper: field decomposition of `|d|` into truncated degrees, minutes and
raw seconds, with the range facts for each component. -/
theorem stage1_spec (d : ℚ) :
    0 ≤ degOf (qAbs d) ∧ 0 ≤ minuteOf (qAbs d) ∧ minuteOf (qAbs d) < 60 ∧
    0 ≤ secondsRaw (qAbs d) ∧ secondsRaw (qAbs d) < 60 ∧
    ((degOf (qAbs d) : ℚ) + (minuteOf (qAbs d) : ℚ) / 60 +
      secondsRaw (qAbs d) / 3600 = |d|) := by
  have hva : qAbs d = |d| := qAbs_eq d
  have hv0 : 0 ≤ qAbs d := by rw [hva]; exact abs_nonneg d
  have hD : degOf (qAbs d) = ⌊qAbs d⌋ := by
    rw [degOf, pyTrunc_eq_floor _ hv0]
  have hmf : minutesFull (qAbs d) = (qAbs d - (⌊qAbs d⌋ : ℚ)) * 60 := by
    rw [minutesFull, qMul_eq, qSub_eq, hD]
  have hmf0 : 0 ≤ minutesFull (qAbs d) := by
    rw [hmf]
    have := Int.floor_le (qAbs d)
    nlinarith
  have hmf60 : minutesFull (qAbs d) < 60 := by
    rw [hmf]
    have := Int.lt_floor_add_one (qAbs d)
    nlinarith
  have hM : minuteOf (qAbs d) = ⌊minutesFull (qAbs d)⌋ := by
    rw [minuteOf, pyTrunc_eq_floor _ hmf0]
  have hM0 : 0 ≤ minuteOf (qAbs d) := by
    rw [hM]; exact Int.floor_nonneg.mpr hmf0
  have hM60 : minuteOf (qAbs d) < 60 := by
    rw [hM]
    have h1 : (⌊minutesFull (qAbs d)⌋ : ℚ) ≤ minutesFull (qAbs d) :=
      Int.floor_le _
    have : ((⌊minutesFull (qAbs d)⌋ : ℤ) : ℚ) < ((60 : ℤ) : ℚ) := by
      push_cast
      linarith
    exact_mod_cast this
  have hS : secondsRaw (qAbs d) =
      (minutesFull (qAbs d) - (⌊minutesFull (qAbs d)⌋ : ℚ)) * 60 := by
    rw [secondsRaw, qMul_eq, qSub_eq, hM]
  have hS0 : 0 ≤ secondsRaw (qAbs d) := by
    rw [hS]
    have := Int.floor_le (minutesFull (qAbs d))
    nlinarith
  have hS60 : secondsRaw (qAbs d) < 60 := by
    rw [hS]
    have := Int.lt_floor_add_one (minutesFull (qAbs d))
    nlinarith
  refine ⟨by rw [hD]; exact Int.floor_nonneg.mpr hv0, hM0, hM60, hS0, hS60, ?_⟩
  rw [hS, hM, hmf, hD, ← hva]
  ring

/-- Helper: rendering a seconds value of the exact form `K/1000` with
`0 ≤ K < 60000` and parsing the result back recovers
`±(D + M/60 + (K/1000)/3600)`. -/
theorem render_parse_core (b : Bool) (hem : Char) (D M K : ℤ)
    (hhem : if b then hem = 'N' ∨ hem = 'S' else hem = 'E' ∨ hem = 'W')
    (hD : 0 ≤ D) (hM0 : 0 ≤ M) (hM : M < 60) (hK0 : 0 ≤ K) (hK : K < 60000) :
    dms_hem_to_decimal (dms_render hem D M (Rat.divInt K 1000)) b =
      .ok (if hem = 'S' ∨ hem = 'W'
           then -((D : ℚ) + (M : ℚ) / 60 + ((K : ℚ) / 1000) / 3600)
           else (D : ℚ) + (M : ℚ) / 60 + ((K : ℚ) / 1000) / 3600) := by
  have hSF0 : 0 ≤ K % 1000 := Int.emod_nonneg K (by norm_num)
  have hSF1 : K % 1000 < 1000 := Int.emod_lt_of_pos K (by norm_num)
  have hdm : 1000 * (K / 1000) + K % 1000 = K := Int.ediv_add_emod K 1000
  have hSI0 : 0 ≤ K / 1000 := by omega
  have hSI : K / 1000 < 60 := by omega
  have hid : (K : ℚ) = 1000 * ((K / 1000 : ℤ) : ℚ) + ((K % 1000 : ℤ) : ℚ) := by
    exact_mod_cast congrArg (fun z : ℤ => (z : ℚ)) hdm.symm
  have hdiv : Rat.divInt K 1000 = (K : ℚ) / 1000 := Rat.divInt_eq_div K 1000
  have hs0 : (0 : ℚ) ≤ Rat.divInt K 1000 := by
    rw [hdiv]
    positivity
  have hfl : pyTrunc (Rat.divInt K 1000) = K / 1000 := by
    rw [pyTrunc_eq_floor _ hs0, hdiv]
    have h0 : (0 : ℚ) ≤ ((K % 1000 : ℤ) : ℚ) := by exact_mod_cast hSF0
    have h1 : ((K % 1000 : ℤ) : ℚ) < 1000 := by exact_mod_cast hSF1
    refine Int.floor_eq_iff.mpr ⟨?_, ?_⟩
    · rw [le_div_iff₀ (by norm_num), hid]
      linarith
    · rw [div_lt_iff₀ (by norm_num), hid]
      linarith
  have harg : qMul (qSub (Rat.divInt K 1000) ((pyTrunc (Rat.divInt K 1000) : ℤ) : ℚ)) 1000 =
      ((K % 1000 : ℤ) : ℚ) := by
    rw [hfl, qMul_eq, qSub_eq, hdiv]
    rw [hid]
    ring
  have hfrac : rhe (qMul (qSub (Rat.divInt K 1000) ((pyTrunc (Rat.divInt K 1000) : ℤ) : ℚ)) 1000) =
      K % 1000 := by
    rw [harg, rhe_intCast]
  have hne : rhe (qMul (qSub (Rat.divInt K 1000) ((pyTrunc (Rat.divInt K 1000) : ℤ) : ℚ)) 1000) ≠
      1000 := by
    rw [hfrac]
    omega
  rw [dms_render_basic hem D M (Rat.divInt K 1000) hne, hfl]
  rw [hfl] at hfrac
  rw [hfrac]
  rw [parse_rendered b hem D M (K / 1000) (K % 1000) hhem hD hM0 hM hSI0 hSI hSF0 hSF1]
  have hsum : ((K / 1000 : ℤ) : ℚ) + ((K % 1000 : ℤ) : ℚ) / 1000 = (K : ℚ) / 1000 := by
    rw [hid]
    ring
  rw [hsum]

/-- Helper: the carry cascade followed by rendering and parsing preserves the
value `D + M/60 + (K/1000)/3600` (up to hemisphere sign) for any rounded
seconds numerator `0 ≤ K ≤ 60000`. -/
theorem carry_render_parse (b : Bool) (hem : Char) (D M K : ℤ)
    (hhem : if b then hem = 'N' ∨ hem = 'S' else hem = 'E' ∨ hem = 'W')
    (hD : 0 ≤ D) (hM0 : 0 ≤ M) (hM : M < 60) (hK0 : 0 ≤ K) (hK : K ≤ 60000) :
    dms_hem_to_decimal
      (dms_render hem (carry_cascade D M (Rat.divInt K 1000)).1
        (carry_cascade D M (Rat.divInt K 1000)).2.1
        (carry_cascade D M (Rat.divInt K 1000)).2.2) b =
      .ok (if hem = 'S' ∨ hem = 'W'
           then -((D : ℚ) + (M : ℚ) / 60 + ((K : ℚ) / 1000) / 3600)
           else (D : ℚ) + (M : ℚ) / 60 + ((K : ℚ) / 1000) / 3600) := by
  have hdiv : Rat.divInt K 1000 = (K : ℚ) / 1000 := Rat.divInt_eq_div K 1000
  by_cases hK6 : K = 60000
  · subst hK6
    have h60 : (60 : ℚ) ≤ Rat.divInt 60000 1000 := by
      rw [hdiv]; norm_num
    have hs0 : qSub (Rat.divInt 60000 1000) 60 = Rat.divInt 0 1000 := by
      rw [qSub_eq, hdiv]; norm_num
    rw [carry_cascade]
    simp only [if_pos h60]
    by_cases hm : 60 ≤ M + 1
    · have hM59 : M = 59 := by omega
      subst hM59
      simp only [if_pos hm]
      rw [hs0, render_parse_core b hem (D + 1) (59 + 1 - 60) 0 hhem (by omega)
        (by omega) (by omega) (by omega) (by omega)]
      congr 1
      have : ((D + 1 : ℤ) : ℚ) + ((59 + 1 - 60 : ℤ) : ℚ) / 60 + (((0 : ℤ) : ℚ) / 1000) / 3600 =
          (D : ℚ) + ((59 : ℤ) : ℚ) / 60 + (((60000 : ℤ) : ℚ) / 1000) / 3600 := by
        push_cast
        ring
      rw [this]
    · simp only [if_neg hm]
      rw [hs0, render_parse_core b hem D (M + 1) 0 hhem hD (by omega) (by omega)
        (by omega) (by omega)]
      congr 1
      have : ((D : ℤ) : ℚ) + ((M + 1 : ℤ) : ℚ) / 60 + (((0 : ℤ) : ℚ) / 1000) / 3600 =
          (D : ℚ) + (M : ℚ) / 60 + (((60000 : ℤ) : ℚ) / 1000) / 3600 := by
        push_cast
        ring
      rw [this]
  · have hKlt : K < 60000 := by omega
    have h60 : ¬ (60 : ℚ) ≤ Rat.divInt K 1000 := by
      rw [hdiv, not_le, div_lt_iff₀ (by norm_num)]
      exact_mod_cast hKlt
    rw [carry_cascade]
    simp only [if_neg h60, if_neg (by omega : ¬ (60 : ℤ) ≤ M)]
    exact render_parse_core b hem D M K hhem hD hM0 hM hK0 hKlt

/-- **C1**: for every decimal degree value `d` and axis flag `b`, converting
`d` with `decimal_to_dms_hem` and parsing the result back with
`dms_hem_to_decimal` on the same axis succeeds and yields a value within
1/3600000 degrees (one millisecond of arc) of `d`. -/
theorem C1_round_trip (d : ℚ) (b : Bool) :
    ∃ r : ℚ, dms_hem_to_decimal (decimal_to_dms_hem d b) b = .ok r ∧
      |r - d| ≤ 1 / 3600000 := by
  obtain ⟨hD0, hM0, hM60, hS0, hS60, hval⟩ := stage1_spec d
  set D := degOf (qAbs d) with hDdef
  set M := minuteOf (qAbs d) with hMdef
  set S := secondsRaw (qAbs d) with hSdef
  set K := rhe (qMul S 1000) with hKdef
  have hemEq : hemChar d b =
      (if 0 ≤ d then (if b then 'N' else 'E') else (if b then 'S' else 'W')) := by
    rw [hemChar]; cases b <;> by_cases hd : 0 ≤ d <;> simp [hd]
  have hhem : if b then hemChar d b = 'N' ∨ hemChar d b = 'S'
      else hemChar d b = 'E' ∨ hemChar d b = 'W' := by
    rw [hemEq]; cases b <;> by_cases hd : 0 ≤ d <;> simp [hd]
  have hK0 : 0 ≤ K := by
    refine rhe_nonneg _ ?_
    rw [qMul_eq]
    linarith
  have hK6 : K ≤ 60000 := by
    refine rhe_le _ 60000 ?_
    rw [qMul_eq]
    push_cast
    linarith
  have hKS : |(K : ℚ) - S * 1000| ≤ 1 / 2 := by
    have h := rhe_sub_abs (qMul S 1000)
    rw [← hKdef] at h
    rw [qMul_eq] at h
    exact h
  have hunf : decimal_to_dms_hem d b =
      dms_render (hemChar d b) (carry_cascade D M (Rat.divInt K 1000)).1
        (carry_cascade D M (Rat.divInt K 1000)).2.1
        (carry_cascade D M (Rat.divInt K 1000)).2.2 := rfl
  have hmain : dms_hem_to_decimal (decimal_to_dms_hem d b) b =
      .ok (if hemChar d b = 'S' ∨ hemChar d b = 'W'
           then -((D : ℚ) + (M : ℚ) / 60 + ((K : ℚ) / 1000) / 3600)
           else (D : ℚ) + (M : ℚ) / 60 + ((K : ℚ) / 1000) / 3600) := by
    rw [hunf]
    exact carry_render_parse b (hemChar d b) D M K hhem hD0 hM0 hM60 hK0 hK6
  have hdiff : ((D : ℚ) + (M : ℚ) / 60 + ((K : ℚ) / 1000) / 3600) - |d| =
      ((K : ℚ) - S * 1000) / 3600000 := by
    rw [← hval]; ring
  have habs : abs (((D : ℚ) + (M : ℚ) / 60 + ((K : ℚ) / 1000) / 3600) - |d|) ≤
      1 / 3600000 := by
    rw [hdiff, abs_div, abs_of_pos (show (0 : ℚ) < 3600000 by norm_num),
      div_le_iff₀ (show (0 : ℚ) < 3600000 by norm_num)]
    linarith [hKS]
  refine ⟨_, hmain, ?_⟩
  by_cases hd : 0 ≤ d
  · have hcondF : ¬(hemChar d b = 'S' ∨ hemChar d b = 'W') := by
      rw [hemEq, if_pos hd]; cases b <;> decide
    rw [if_neg hcondF]
    have h1 : |((D : ℚ) + (M : ℚ) / 60 + ((K : ℚ) / 1000) / 3600) - d| =
        abs (((D : ℚ) + (M : ℚ) / 60 + ((K : ℚ) / 1000) / 3600) - |d|) := by
      rw [abs_of_nonneg hd]
    rw [h1]; exact habs
  · have hcondT : hemChar d b = 'S' ∨ hemChar d b = 'W' := by
      rw [hemEq, if_neg hd]
      cases b
      · exact Or.inr rfl
      · exact Or.inl rfl
    rw [if_pos hcondT]
    have habsd : |d| = -d := abs_of_neg (lt_of_not_ge hd)
    have h1 : |-((D : ℚ) + (M : ℚ) / 60 + ((K : ℚ) / 1000) / 3600) - d| =
        abs (((D : ℚ) + (M : ℚ) / 60 + ((K : ℚ) / 1000) / 3600) - |d|) := by
      rw [habsd, show -((D : ℚ) + (M : ℚ) / 60 + ((K : ℚ) / 1000) / 3600) - d =
        -(((D : ℚ) + (M : ℚ) / 60 + ((K : ℚ) / 1000) / 3600) - -d) by ring, abs_neg]
    rw [h1]; exact habs
